import Mathlib

/-!
Shallow embedding of the MacintoshCraft world generator
(src/src/worldgen.c, src/src/tools.c, src/tests/test_binary_search.c)
together with proofs about the claims of the specification.

Conventions of the embedding:
* C unsigned machine integers are `Nat` together with explicit reductions
  `% 2^w` (helpers `u8`, `u16`, `u32`, `u64`) exactly where the C type
  forces a truncation.
* C signed integers are `Int`; where the C code stores a value into a
  narrower signed type (`short`, `int8_t`) the two's-complement wrap is
  made explicit through `toI16` / `toI8`.
* C `%` and `/` on `int` are truncated (`Int.tmod` / `Int.tdiv`); the
  helper functions `mod_abs` and `div_floor` of tools.h are embedded
  literally with truncated operations and then proved equal to the
  mathematical `Int.emod` / `Int.ediv` for the positive modulus 16 used
  throughout the generator.
* The global `world_seed` (a `uint32_t`) is threaded through as an
  explicit `seed : Nat` parameter.

The headers globals.h and registries.h and the file procedures.c are not
part of the sources; the constants and the overlay lookup they provide
are modelled from the specification where needed, each with a doc
comment starting with `Modelled from the spec:`.
-/

/-- Truncation to an unsigned 8-bit value (a C `uint8_t` store). -/
def u8 (n : Nat) : Nat := n % 256

/-- Truncation to an unsigned 16-bit value (a C `uint16_t` store). -/
def u16 (n : Nat) : Nat := n % 65536

/-- Truncation to an unsigned 32-bit value (a C `uint32_t` store). -/
def u32 (n : Nat) : Nat := n % 4294967296

/-- Truncation to an unsigned 64-bit value (a C `uint64_t` store). -/
def u64 (n : Nat) : Nat := n % 18446744073709551616

/-- Two's-complement wrap of an integer into `int8_t` range. -/
def toI8 (v : Int) : Int := (v + 128) % 256 - 128

/-- Two's-complement wrap of an integer into `int16_t` (C `short`) range. -/
def toI16 (v : Int) : Int := (v + 32768) % 65536 - 32768

/-- Low 16 bits of a C `short`, i.e. the two's-complement bit pattern
obtained when an `int16_t` is read byte-wise. -/
def i16bits (x : Int) : Nat := (x % 65536).toNat

/-- Low 32 bits of a C `int` value, i.e. the two's-complement bit pattern
produced by a cast to `uint32_t` (signed multiply overflow is modelled as
the usual wraparound). -/
def i32bits (x : Int) : Nat := (x % 4294967296).toNat

/-- mod_abs from tools.h: `((a % b) + b) % b` with C truncated `%`. -/
def mod_abs (a b : Int) : Int := ((a.tmod b) + b).tmod b

/-- div_floor from tools.h: `a % b < 0 ? (a - b) / b : a / b` with C
truncated `%` and `/`. -/
def div_floor (a b : Int) : Int :=
  if a.tmod b < 0 then (a - b).tdiv b else a.tdiv b

lemma tmod_ofNat_16 (m : Nat) : (m : Int).tmod 16 = ((m % 16 : Nat) : Int) := rfl

lemma tmod_negSucc_16 (m : Nat) :
    (Int.negSucc m).tmod 16 = -(((m + 1) % 16 : Nat) : Int) := rfl

lemma tdiv_ofNat_16 (m : Nat) : (m : Int).tdiv 16 = ((m / 16 : Nat) : Int) := rfl

lemma tdiv_negSucc_16 (m : Nat) :
    (Int.negSucc m).tdiv 16 = -(((m + 1) / 16 : Nat) : Int) := rfl

/-- For the modulus 16 used by the generator, the C helper computes the
mathematical (Euclidean) remainder. -/
lemma mod_abs_16 (a : Int) : mod_abs a 16 = a % 16 := by
  unfold mod_abs
  rcases a with m | m
  · rw [show (Int.ofNat m) = (m : Int) from rfl, tmod_ofNat_16]
    rw [show (((m % 16 : Nat) : Int) + 16) = (((m % 16 + 16 : Nat)) : Int) by push_cast; ring]
    rw [tmod_ofNat_16]
    rw [show ((m : Int)) % 16 = ((m % 16 : Nat) : Int) from (Int.ofNat_emod m 16).symm]
    congr 1
    omega
  · rw [tmod_negSucc_16]
    have hlt : (m + 1) % 16 < 16 := Nat.mod_lt _ (by norm_num)
    rw [show (-(((m + 1) % 16 : Nat) : Int) + 16) = (((16 - (m + 1) % 16 : Nat)) : Int) by
      push_cast; omega]
    rw [tmod_ofNat_16]
    have h2 : (Int.negSucc m) % 16 = 16 - 1 - ((m % 16 : Nat) : Int) := by
      rw [Int.negSucc_emod]
      · rw [show ((m : Int)) % 16 = ((m % 16 : Nat) : Int) from (Int.ofNat_emod m 16).symm]
      · norm_num
    rw [h2]
    push_cast
    omega

/-- For the divisor 16 used by the generator, the C helper computes the
mathematical floor division. -/
lemma div_floor_16 (a : Int) : div_floor a 16 = a / 16 := by
  unfold div_floor
  rcases a with m | m
  · rw [show (Int.ofNat m) = (m : Int) from rfl, tmod_ofNat_16]
    rw [if_neg (by push_cast; omega)]
    rw [tdiv_ofNat_16, Int.ofNat_ediv]
    norm_num
  · rw [tmod_negSucc_16]
    have hed : Int.negSucc m / 16 = -((m : Int) / 16 + 1) := Int.negSucc_ediv m (by norm_num)
    by_cases h : (m + 1) % 16 = 0
    · rw [if_neg (by rw [h]; simp)]
      rw [tdiv_negSucc_16, hed]
      rw [show ((m : Int)) / 16 = ((m / 16 : Nat) : Int) from (Int.ofNat_ediv m 16).symm]
      push_cast
      omega
    · rw [if_pos (by push_cast; omega)]
      rw [show (Int.negSucc m - 16) = Int.negSucc (m + 16) by
        rw [Int.negSucc_eq, Int.negSucc_eq]; push_cast; ring]
      rw [tdiv_negSucc_16, hed]
      rw [show ((m : Int)) / 16 = ((m / 16 : Nat) : Int) from (Int.ofNat_ediv m 16).symm]
      push_cast
      omega

/-- splitmix64 from tools.c, all operations modulo `2^64`. -/
def splitmix64 (state : Nat) : Nat :=
  let z1 := u64 (state + 0x9e3779b97f4a7c15)
  let z2 := u64 ((z1 ^^^ (z1 >>> 30)) * 0xbf58476d1ce4e5b9)
  let z3 := u64 ((z2 ^^^ (z2 >>> 27)) * 0x94d049bb133111eb)
  z3 ^^^ (z3 >>> 31)

/-- The world seed fixed by the end-to-end scenarios of the spec:
`world_seed = splitmix64(0xA103DE6C)` stored into a `uint32_t`. -/
def world_seed : Nat := u32 (splitmix64 0xA103DE6C)

/-- Little-endian byte image of a 16-bit value (C `memcpy` of an `int16_t`
on a little-endian host writes the low byte first). -/
def bytesLE2 (v : Nat) : List Nat := [v % 256, v / 256 % 256]

/-- Big-endian byte image of a 16-bit value (C `memcpy` of an `int16_t`
on a big-endian host such as the 68k Mac writes the high byte first). -/
def bytesBE2 (v : Nat) : List Nat := [v / 256 % 256, v % 256]

/-- Little-endian byte image of a 32-bit value. -/
def bytesLE4 (v : Nat) : List Nat :=
  [v % 256, v / 256 % 256, v / 65536 % 256, v / 16777216 % 256]

/-- Big-endian byte image of a 32-bit value. -/
def bytesBE4 (v : Nat) : List Nat :=
  [v / 16777216 % 256, v / 65536 % 256, v / 256 % 256, v % 256]

/-- Value of an 8-byte buffer read as a `uint64_t` on a little-endian
host (first byte is least significant). -/
def readU64LE (bytes : List Nat) : Nat := bytes.foldr (fun b acc => b + 256 * acc) 0

/-- Value of an 8-byte buffer read as a `uint64_t` on a big-endian host
(first byte is most significant). -/
def readU64BE (bytes : List Nat) : Nat := bytes.foldl (fun acc b => acc * 256 + b) 0

/-- getChunkHash from worldgen.c on a little-endian host: the bytes of
`x`, `z` and the seed are copied into an 8-byte buffer in host byte
order and the buffer is reinterpreted as a `uint64_t` in host byte
order; the `uint32_t` return type truncates `splitmix64` to its low 32
bits. -/
def getChunkHash (seed : Nat) (x z : Int) : Nat :=
  u32 (splitmix64 (readU64LE (bytesLE2 (i16bits x) ++ bytesLE2 (i16bits z) ++
    bytesLE4 (u32 seed))))

/-- getChunkHash from worldgen.c on a big-endian host (the MAC68K target
of this code base): the same source, with both the `memcpy` byte order
and the `uint64_t` read being big-endian. -/
def getChunkHashBE (seed : Nat) (x z : Int) : Nat :=
  u32 (splitmix64 (readU64BE (bytesBE2 (i16bits x) ++ bytesBE2 (i16bits z) ++
    bytesBE4 (u32 seed))))

lemma i16bits_lt (x : Int) : i16bits x < 65536 := by
  unfold i16bits
  omega

lemma u32_lt (n : Nat) : u32 n < 4294967296 := Nat.mod_lt _ (by norm_num)

/-- On a little-endian host the packed hash input is
`x + 2^16 * z + 2^32 * seed` over the 16-bit patterns of `x`, `z` and
the 32-bit seed. -/
lemma getChunkHash_eq (seed : Nat) (x z : Int) :
    getChunkHash seed x z =
      u32 (splitmix64 (i16bits x + 65536 * i16bits z + 4294967296 * u32 seed)) := by
  unfold getChunkHash
  congr 2
  have hx := i16bits_lt x
  have hz := i16bits_lt z
  have hs := u32_lt seed
  simp only [bytesLE2, bytesLE4, readU64LE, List.cons_append, List.nil_append, List.foldr]
  omega

/-- On a big-endian host the packed hash input is
`2^48 * x + 2^32 * z + seed` instead. -/
lemma getChunkHashBE_eq (seed : Nat) (x z : Int) :
    getChunkHashBE seed x z =
      u32 (splitmix64 (281474976710656 * i16bits x + 4294967296 * i16bits z + u32 seed)) := by
  unfold getChunkHashBE
  congr 2
  have hx := i16bits_lt x
  have hz := i16bits_lt z
  have hs := u32_lt seed
  simp only [bytesBE2, bytesBE4, readU64BE, List.cons_append, List.nil_append, List.foldl]
  omega

/-- Modelled from the spec: registries.h is not part of the sources; the
spec fixes the biome enum as plains=0, desert=1, mangrove_swamp=2,
snowy_plains=3, beach=4. -/
def W_plains : Nat := 0

/-- Modelled from the spec: biome id of the desert biome. -/
def W_desert : Nat := 1

/-- Modelled from the spec: biome id of the mangrove swamp biome. -/
def W_mangrove_swamp : Nat := 2

/-- Modelled from the spec: biome id of the snowy plains biome. -/
def W_snowy_plains : Nat := 3

/-- Modelled from the spec: biome id of the beach biome. -/
def W_beach : Nat := 4

/-- Modelled from the spec: registries.h is not part of the sources;
block ids are opaque pass-through bytes, so they are modelled as
arbitrary pairwise distinct values below 255 (255 is the reserved
overlay tombstone). -/
def B_air : Nat := 0

/-- Modelled from the spec: block id, see `B_air`. -/
def B_stone : Nat := 1

/-- Modelled from the spec: block id, see `B_air`. -/
def B_bedrock : Nat := 2

/-- Modelled from the spec: block id, see `B_air`. -/
def B_dirt : Nat := 3

/-- Modelled from the spec: block id, see `B_air`. -/
def B_grass_block : Nat := 4

/-- Modelled from the spec: block id, see `B_air`. -/
def B_water : Nat := 5

/-- Modelled from the spec: block id, see `B_air`. -/
def B_lava : Nat := 6

/-- Modelled from the spec: block id, see `B_air`. -/
def B_sand : Nat := 7

/-- Modelled from the spec: block id, see `B_air`. -/
def B_sandstone : Nat := 8

/-- Modelled from the spec: block id, see `B_air`. -/
def B_mud : Nat := 9

/-- Modelled from the spec: block id, see `B_air`. -/
def B_snow : Nat := 10

/-- Modelled from the spec: block id, see `B_air`. -/
def B_snowy_grass_block : Nat := 11

/-- Modelled from the spec: block id, see `B_air`. -/
def B_ice : Nat := 12

/-- Modelled from the spec: block id, see `B_air`. -/
def B_oak_log : Nat := 13

/-- Modelled from the spec: block id, see `B_air`. -/
def B_oak_leaves : Nat := 14

/-- Modelled from the spec: block id, see `B_air`. -/
def B_dead_bush : Nat := 15

/-- Modelled from the spec: block id, see `B_air`. -/
def B_cactus : Nat := 16

/-- Modelled from the spec: block id, see `B_air`. -/
def B_lily_pad : Nat := 17

/-- Modelled from the spec: block id, see `B_air`. -/
def B_moss_carpet : Nat := 18

/-- Modelled from the spec: block id, see `B_air`. -/
def B_short_grass : Nat := 19

/-- Modelled from the spec: block id, see `B_air`. -/
def B_diamond_ore : Nat := 20

/-- Modelled from the spec: block id, see `B_air`. -/
def B_gold_ore : Nat := 21

/-- Modelled from the spec: block id, see `B_air`. -/
def B_redstone_ore : Nat := 22

/-- Modelled from the spec: block id, see `B_air`. -/
def B_iron_ore : Nat := 23

/-- Modelled from the spec: block id, see `B_air`. -/
def B_copper_ore : Nat := 24

/-- Modelled from the spec: block id, see `B_air`. -/
def B_coal_ore : Nat := 25

/-- Modelled from the spec: block id, see `B_air`. -/
def B_cobblestone : Nat := 26

/-- Modelled from the spec: block id, see `B_air`. -/
def B_diamond_block : Nat := 27

/-- Modelled from the spec: block id, see `B_air`; torches are excluded
from bulk sections by the builder. -/
def B_torch : Nat := 28

/-- Modelled from the spec: block id, see `B_air`; chests are excluded
from bulk sections by the builder (ALLOW_CHESTS configuration of the
spec, section 4.6). -/
def B_chest : Nat := 29

/-- getChunkBiome from worldgen.c.  `BIOME_SIZE = 16`, `BIOME_RADIUS = 8`
(spec section 4.2; globals.h is absent).  The C `short` parameters are
shifted by the radius (with the `int16_t` wrap made explicit), the C
bitwise `& 3` / `& 15` on two's-complement values equal the Euclidean
`% 4` / `% 16`, and `abs` is `Int.natAbs`. -/
def getChunkBiome (seed : Nat) (x z : Int) : Nat :=
  let x' := toI16 (x + 8)
  let z' := toI16 (z + 8)
  let dx := 8 - mod_abs x' 16
  let dz := 8 - mod_abs z' 16
  if 64 < dx * dx + dz * dz then W_beach
  else
    let biome_x := div_floor x' 16
    let biome_z := div_floor z' 16
    let index := (biome_x % 4 + (biome_z * 4) % 16).natAbs
    (u32 seed >>> (index * 2)) &&& 3

/-- Modelled from the spec: `TERRAIN_BASE_HEIGHT = 64` (spec section 4.3;
globals.h is absent). -/
def TERRAIN_BASE_HEIGHT : Nat := 64

/-- getCornerHeight from worldgen.c.  The running `height` variable is a
`uint8_t`; every store is truncated with `u8`.  Note the mangrove swamp
case sums `% 3` residues of the shifted hash (not 2-bit fields), and its
pond branch subtracts on the `uint8_t` (wraparound made explicit). -/
def getCornerHeight (hash : Nat) (biome : Nat) : Nat :=
  if biome = W_mangrove_swamp then
    let height := u8 (TERRAIN_BASE_HEIGHT +
      ((hash % 3) + ((hash >>> 4) % 3) + ((hash >>> 8) % 3) + ((hash >>> 12) % 3)))
    if height < 64 then u8 (height + 256 - ((hash >>> 24) &&& 3)) else height
  else if biome = W_plains then
    u8 (TERRAIN_BASE_HEIGHT +
      ((hash &&& 3) + ((hash >>> 4) &&& 3) + ((hash >>> 8) &&& 3) + ((hash >>> 12) &&& 3)))
  else if biome = W_desert then
    u8 (TERRAIN_BASE_HEIGHT + 4 + ((hash &&& 3) + ((hash >>> 4) &&& 3)))
  else if biome = W_beach then
    u8 (62 - ((hash &&& 3) + ((hash >>> 4) &&& 3) + ((hash >>> 8) &&& 3)))
  else if biome = W_snowy_plains then
    u8 (TERRAIN_BASE_HEIGHT + ((hash &&& 7) + ((hash >>> 4) &&& 7)))
  else TERRAIN_BASE_HEIGHT

/-- interpolate from worldgen.c with `CHUNK_SIZE = 16`: bilinear
interpolation over the four corner heights; `top` and `bottom` are
`uint16_t` stores and the result is a `uint8_t`.  The callers only pass
`x, z` in `[0, 15]`. -/
def interpolate (a b c d : Nat) (x z : Nat) : Nat :=
  let top := u16 (a * (16 - x) + b * x)
  let bottom := u16 (c * (16 - x) + d * x)
  u8 ((top * (16 - z) + bottom * z) / 256)

/-- ChunkAnchor (spec section 3: `x, z` are `int16_t`, `hash` a
`uint32_t`, `biome` a `uint8_t`). -/
structure ChunkAnchor where
  x : Int
  z : Int
  hash : Nat
  biome : Nat
deriving DecidableEq

/-- ChunkFeature (spec section 3: `x, z` are `int16_t` world coordinates,
`y` and `variant` are `uint8_t`; `y = 255` means the feature is
suppressed). -/
structure ChunkFeature where
  x : Int
  z : Int
  y : Nat
  variant : Nat
deriving DecidableEq

/-- getHeightAtFromAnchors from worldgen.c with `CHUNK_SIZE = 16`: the
anchor pointer indices 0, 1, `16/CHUNK_SIZE+1 = 2` and
`16/CHUNK_SIZE+2 = 3` are passed as the four explicit corner anchors. -/
def getHeightAtFromAnchors (rx rz : Nat) (a0 a1 a2 a3 : ChunkAnchor) : Nat :=
  if rx = 0 ∧ rz = 0 ∧ 67 < getCornerHeight a0.hash a0.biome then
    getCornerHeight a0.hash a0.biome - 1
  else
    interpolate (getCornerHeight a0.hash a0.biome) (getCornerHeight a1.hash a1.biome)
      (getCornerHeight a2.hash a2.biome) (getCornerHeight a3.hash a3.biome) rx rz

/-- getHeightAtFromHash from worldgen.c: like `getHeightAtFromAnchors`,
with the three neighbouring corners recomputed from the seed. -/
def getHeightAtFromHash (seed : Nat) (rx rz : Nat) (cx cz : Int)
    (chunk_hash biome : Nat) : Nat :=
  if rx = 0 ∧ rz = 0 ∧ 67 < getCornerHeight chunk_hash biome then
    getCornerHeight chunk_hash biome - 1
  else
    interpolate (getCornerHeight chunk_hash biome)
      (getCornerHeight (getChunkHash seed (cx + 1) cz) (getChunkBiome seed (cx + 1) cz))
      (getCornerHeight (getChunkHash seed cx (cz + 1)) (getChunkBiome seed cx (cz + 1)))
      (getCornerHeight (getChunkHash seed (cx + 1) (cz + 1)) (getChunkBiome seed (cx + 1) (cz + 1)))
      rx rz

/-- getHeightAt from worldgen.c (terrain height, ignoring the overlay). -/
def getHeightAt (seed : Nat) (x z : Int) : Nat :=
  let cx := div_floor x 16
  let cz := div_floor z 16
  let rx := (mod_abs x 16).toNat
  let rz := (mod_abs z 16).toNat
  getHeightAtFromHash seed rx rz cx cz (getChunkHash seed cx cz) (getChunkBiome seed cx cz)

/-- getFeatureFromAnchor from worldgen.c.  For a suppressed feature the C
code leaves `variant` uninitialized; it is modelled as 0 (no claim reads
it).  When not suppressed, `feature.x` and `feature.z` become world
coordinates via `int16_t` stores, `feature.y` is a `uint8_t` store of
height + 1, and `variant` shifts the hash by `feature.x + feature.z`,
the WORLD coordinate sum (a C shift that is only well defined for counts
in `[0, 31]`; negative counts are clamped to 0 by `Int.toNat` here and
the theorems restrict to the well defined range). -/
def getFeatureFromAnchor (seed : Nat) (anchor : ChunkAnchor) : ChunkFeature :=
  let feature_position := anchor.hash % 256
  let fx : Int := (feature_position % 16 : Nat)
  let fz : Int := (feature_position / 16 : Nat)
  if anchor.biome ≠ W_mangrove_swamp ∧ ((fx < 3 ∨ 13 < fx) ∨ (fz < 3 ∨ 13 < fz)) then
    { x := fx, z := fz, y := 255, variant := 0 }
  else
    let wx := toI16 (fx + anchor.x * 16)
    let wz := toI16 (fz + anchor.z * 16)
    let fy := u8 (getHeightAtFromHash seed (mod_abs wx 16).toNat (mod_abs wz 16).toNat
      anchor.x anchor.z anchor.hash anchor.biome + 1)
    { x := wx, z := wz, y := fy, variant := (anchor.hash >>> (wx + wz).toNat) &&& 1 }

/-- Modelled from the spec: `CAVE_BASE_DEPTH` lives in the absent
globals.h; the spec (section 4.5) describes it as a sea-level-like
midpoint constant, taken here as 32.  The claims settled below do not
depend on its exact value as long as caves cannot reach negative
depths. -/
def CAVE_BASE_DEPTH : Int := 32

/-- The `uint8_t` distance variables of getTerrainAtFromCache
(`dx = x > fx ? x - fx : fx - x`): a truncated absolute difference. -/
def u8AbsDiff (a b : Int) : Nat := u8 (a - b).natAbs

/-- Feature layer of getTerrainAtFromCache (worldgen.c lines 175-249):
the `switch (anchor.biome)` inside
`if (y >= 64 && y >= height && feature.y != 255)`.
`some b` is a `return b` of the C code; `none` is a `break` (or not
entering the switch), which falls through to the common terrain path. -/
def featureBlockAt (x y z : Int) (anchor : ChunkAnchor) (feature : ChunkFeature)
    (height : Nat) : Option Nat :=
  if ¬(64 ≤ y ∧ (height : Int) ≤ y ∧ feature.y ≠ 255) then none
  else if anchor.biome = W_plains then
    if (feature.y : Int) < 64 then none
    else if x = feature.x ∧ z = feature.z ∧ y = (feature.y : Int) - 1 then some B_dirt
    else if x = feature.x ∧ z = feature.z ∧ (feature.y : Int) ≤ y ∧
        y < (feature.y : Int) - (feature.variant : Int) + 6 then some B_oak_log
    else if u8AbsDiff x feature.x < 3 ∧ u8AbsDiff z feature.z < 3 ∧
        (feature.y : Int) - (feature.variant : Int) + 2 < y ∧
        y < (feature.y : Int) - (feature.variant : Int) + 5 then
      if y = (feature.y : Int) - (feature.variant : Int) + 4 ∧
          u8AbsDiff x feature.x = 2 ∧ u8AbsDiff z feature.z = 2 then none
      else some B_oak_leaves
    else if u8AbsDiff x feature.x < 2 ∧ u8AbsDiff z feature.z < 2 ∧
        (feature.y : Int) - (feature.variant : Int) + 5 ≤ y ∧
        y ≤ (feature.y : Int) - (feature.variant : Int) + 6 then
      if y = (feature.y : Int) - (feature.variant : Int) + 6 ∧
          u8AbsDiff x feature.x = 1 ∧ u8AbsDiff z feature.z = 1 then none
      else some B_oak_leaves
    else if y = (height : Int) then some B_grass_block
    else some B_air
  else if anchor.biome = W_desert then
    if ¬(x = feature.x ∧ z = feature.z) then none
    else if feature.variant = 0 then
      if y = (height : Int) + 1 then some B_dead_bush else none
    else if (height : Int) < y then
      if height % 2 = 1 ∧ y ≤ (height : Int) + 3 then some B_cactus
      else if y ≤ (height : Int) + 2 then some B_cactus
      else none
    else none
  else if anchor.biome = W_mangrove_swamp then
    if x = feature.x ∧ z = feature.z ∧ y = 64 ∧ height < 63 then some B_lily_pad
    else if y = (height : Int) + 1 then
      if u8AbsDiff x feature.x + u8AbsDiff z feature.z < 4 then some B_moss_carpet else none
    else none
  else if anchor.biome = W_snowy_plains then
    if x = feature.x ∧ z = feature.z ∧ y = (height : Int) + 1 ∧ 64 ≤ height then
      some B_short_grass
    else none
  else none

/-- The per-column ore Y coordinate of getTerrainAtFromCache (worldgen.c
lines 274-278): the local `uint8_t ore_y` xorshift chain, every store
truncated with `u8`, with the final `&= 63`. -/
def oreColumnY (rx rz : Nat) : Nat :=
  let t0 := ((rx &&& 15) <<< 4) + (rz &&& 15)
  let t1 := u8 (t0 ^^^ (t0 <<< 4))
  let t2 := t1 ^^^ (t1 >>> 5)
  let t3 := u8 (t2 ^^^ (t2 <<< 1))
  t3 &&& 63

/-- The ore rarity byte of getTerrainAtFromCache (worldgen.c line 284). -/
def oreProbability (hash ore_y : Nat) : Nat := (hash >>> (ore_y % 24)) &&& 255

/-- The `int8_t gap` local of the cave carving (worldgen.c line 267). -/
def caveGap (height : Nat) : Int := toI8 ((height : Int) - (TERRAIN_BASE_HEIGHT : Int))

/-- getTerrainAtFromCache from worldgen.c (lines 173-321).  `rx`, `rz`
are the chunk-relative coordinates, always in `[0, 15]` at every call
site; the C locals `gap`, `ore_y` and `ore_probability` are the helper
definitions above. -/
def getTerrainAtFromCache (x y z : Int) (rx rz : Nat) (anchor : ChunkAnchor)
    (feature : ChunkFeature) (height : Nat) : Nat :=
  match featureBlockAt x y z anchor feature height with
  | some b => b
  | none =>
    if 63 ≤ height ∧ y = (height : Int) then
      if anchor.biome = W_mangrove_swamp then B_mud
      else if anchor.biome = W_snowy_plains then B_snowy_grass_block
      else if anchor.biome = W_desert then B_sand
      else if anchor.biome = W_beach then B_sand
      else B_grass_block
    else if 63 ≤ height ∧ anchor.biome = W_snowy_plains ∧ y = (height : Int) + 1 then B_snow
    else if y ≤ (height : Int) - 4 then
      if y < CAVE_BASE_DEPTH + caveGap height ∧ CAVE_BASE_DEPTH - caveGap height < y then B_air
      else if y = (oreColumnY rx rz : Int) then
        if y < 15 ∧ oreProbability anchor.hash (oreColumnY rx rz) < 10 then B_diamond_ore
        else if y < 15 ∧ oreProbability anchor.hash (oreColumnY rx rz) < 12 then B_gold_ore
        else if y < 15 ∧ oreProbability anchor.hash (oreColumnY rx rz) < 15 then B_redstone_ore
        else if y < 30 ∧ oreProbability anchor.hash (oreColumnY rx rz) < 3 then B_gold_ore
        else if y < 30 ∧ oreProbability anchor.hash (oreColumnY rx rz) < 8 then B_redstone_ore
        else if y < 54 ∧ oreProbability anchor.hash (oreColumnY rx rz) < 30 then B_iron_ore
        else if y < 54 ∧ oreProbability anchor.hash (oreColumnY rx rz) < 40 then B_copper_ore
        else if oreProbability anchor.hash (oreColumnY rx rz) < 60 then B_coal_ore
        else if y < 5 then B_lava
        else B_cobblestone
      else B_stone
    else if y ≤ (height : Int) then
      if anchor.biome = W_desert then B_sandstone
      else if anchor.biome = W_mangrove_swamp then B_mud
      else if anchor.biome = W_beach ∧ 64 < height then B_sandstone
      else B_dirt
    else if y = 63 ∧ anchor.biome = W_snowy_plains then B_ice
    else if y < 64 then B_water
    else B_air

/-- getTerrainAt from worldgen.c: the single-block synthesis path, with
the `rx = x % 16` / `if (rx < 0) rx += 16` adjustment of the source
(equal to the Euclidean remainder, see `terrainAdjust_eq`). -/
def getTerrainAt (seed : Nat) (x y z : Int) (anchor : ChunkAnchor) : Nat :=
  if 80 < y then B_air
  else
    let rx0 := x.tmod 16
    let rx := (if rx0 < 0 then rx0 + 16 else rx0).toNat
    let rz0 := z.tmod 16
    let rz := (if rz0 < 0 then rz0 + 16 else rz0).toNat
    let feature := getFeatureFromAnchor seed anchor
    let height := getHeightAtFromHash seed rx rz anchor.x anchor.z anchor.hash anchor.biome
    getTerrainAtFromCache x y z rx rz anchor feature height

/-- The truncated-remainder adjustment of getTerrainAt equals the
Euclidean remainder. -/
lemma terrainAdjust_eq (x : Int) :
    (if x.tmod 16 < 0 then x.tmod 16 + 16 else x.tmod 16) = x % 16 := by
  rcases x with m | m
  · rw [show (Int.ofNat m) = (m : Int) from rfl, tmod_ofNat_16]
    rw [if_neg (by push_cast; omega)]
    rw [show ((m : Int)) % 16 = ((m % 16 : Nat) : Int) from (Int.ofNat_emod m 16).symm]
  · rw [tmod_negSucc_16]
    have hlt : (m + 1) % 16 < 16 := Nat.mod_lt _ (by norm_num)
    have h2 : (Int.negSucc m) % 16 = 16 - 1 - ((m % 16 : Nat) : Int) := by
      rw [Int.negSucc_emod]
      · rw [show ((m : Int)) % 16 = ((m % 16 : Nat) : Int) from (Int.ofNat_emod m 16).symm]
      · norm_num
    rw [h2]
    by_cases h : (m + 1) % 16 = 0
    · rw [if_neg (by rw [h]; simp)]
      push_cast
      omega
    · rw [if_pos (by push_cast; omega)]
      push_cast
      omega

/-- BlockChange (spec section 3): `x, z` are `int16_t`, `y` and `block`
are `uint8_t`; `block = 255` is the tombstone sentinel. -/
structure BlockChange where
  x : Int
  y : Nat
  z : Int
  block : Nat
deriving DecidableEq

/-- Placeholder entry used for out-of-bounds array reads (the C array
has static size `MAX_BLOCK_CHANGES`; all verified paths stay in
bounds). -/
def bcDummy : BlockChange := { x := 0, y := 0, z := 0, block := 0 }

/-- Modelled from the spec: `MAX_BLOCK_CHANGES` lives in the absent
globals.h; the spec gives no numeric value and no claim depends on it,
so a representative capacity is fixed. -/
def MAX_BLOCK_CHANGES : Nat := 1024

/-- compareBlockChangeCoords from test_binary_search.c: lexicographic
comparison on `(x, z, y)` returning -1, 0 or 1. -/
def compareBlockChangeCoords (x1 : Int) (y1 : Nat) (z1 : Int)
    (x2 : Int) (y2 : Nat) (z2 : Int) : Int :=
  if x1 ≠ x2 then (if x1 < x2 then -1 else 1)
  else if z1 ≠ z2 then (if z1 < z2 then -1 else 1)
  else if y1 ≠ y2 then (if y1 < y2 then -1 else 1)
  else 0

/-- The tombstone-skipping loop inside binarySearchBlockChange
(`while (actual_mid <= right && block == 0xFF) actual_mid++`), embedded
with explicit fuel; any fuel above `right - am` is sufficient, and the
maintained overlay invariant rules tombstones out entirely. -/
def skipTombstones (l : List BlockChange) : Nat → Int → Int → Int
  | 0, am, _ => am
  | fuel + 1, am, r =>
    if am ≤ r ∧ (l.getD am.toNat bcDummy).block = 255 then skipTombstones l fuel (am + 1) r
    else am

/-- binarySearchBlockChange from test_binary_search.c, embedded with
explicit fuel for the `while (left <= right)` loop (the interval length
shrinks every iteration, so `l.length + 1` fuel is always enough at the
top level).  The result is the found index (C return value `actual_mid`
or -1 as `none`) together with the final `left`, which the C code
stores through `insert_pos`. -/
def binarySearchBlockChange (l : List BlockChange) (x : Int) (y : Nat) (z : Int) :
    Nat → Int → Int → Option Nat × Int
  | 0, left, _ => (none, left)
  | fuel + 1, left, right =>
    if left ≤ right then
      let mid := left + (right - left) / 2
      let am := skipTombstones l (l.length + 1) mid right
      if right < am then binarySearchBlockChange l x y z fuel left (mid - 1)
      else
        let e := l.getD am.toNat bcDummy
        let cmp := compareBlockChangeCoords x y z e.x e.y e.z
        if cmp = 0 then (some am.toNat, left)
        else if cmp < 0 then binarySearchBlockChange l x y z fuel left (am - 1)
        else binarySearchBlockChange l x y z fuel (am + 1) right
    else (none, left)

/-- Top-level binary search over the whole overlay
(`left = 0`, `right = block_changes_count - 1`). -/
def bsearchTop (l : List BlockChange) (x : Int) (y : Nat) (z : Int) : Option Nat × Int :=
  binarySearchBlockChange l x y z (l.length + 1) 0 ((l.length : Int) - 1)

/-- getBlockChange_binary from test_binary_search.c.  Modelled from the
spec: the production lookup lives in the absent procedures.c; spec
section 9 designates this sorted binary-search implementation as
authoritative. -/
def getBlockChange (l : List BlockChange) (x : Int) (y : Nat) (z : Int) : Nat :=
  match (bsearchTop l x y z).1 with
  | some i => if (l.getD i bcDummy).block ≠ 255 then (l.getD i bcDummy).block else 255
  | none => 255

/-- insertBlockChangeSorted from test_binary_search.c.  The element
shifts of the C code become `take`/`drop` decompositions of the list:
deleting is erasing index `existing`, inserting places the new entry at
`insert_pos`.  Returns the C result code (0 ok, 1 full) and the new
overlay. -/
def insertBlockChangeSorted (l : List BlockChange) (x : Int) (y : Nat) (z : Int)
    (block : Nat) : Nat × List BlockChange :=
  let res := bsearchTop l x y z
  match res.1 with
  | some i =>
    if block = 255 then (0, l.take i ++ l.drop (i + 1))
    else (0, l.set i { l.getD i bcDummy with block := block })
  | none =>
    if block = 255 then (0, l)
    else if MAX_BLOCK_CHANGES ≤ l.length then (1, l)
    else (0, l.take res.2.toNat ++ { x := x, y := y, z := z, block := block } :: l.drop res.2.toNat)

/-- getBlockAt from worldgen.c.  The conversions at the getBlockChange
call are the C argument conversions (`int` to `short` for `x`, `z` and
`int` to `uint8_t` for `y`); `anchor_x`, `anchor_z` are `short`
stores. -/
def getBlockAt (seed : Nat) (changes : List BlockChange) (x y z : Int) : Nat :=
  if y < 0 then B_bedrock
  else
    let bc := getBlockChange changes (toI16 x) ((y % 256).toNat) (toI16 z)
    if bc ≠ 255 then bc
    else
      let ax := toI16 (div_floor x 16)
      let az := toI16 (div_floor z 16)
      let anchor : ChunkAnchor :=
        { x := ax, z := az, hash := getChunkHash seed ax az, biome := getChunkBiome seed ax az }
      getTerrainAt seed x y z anchor

/-- One anchor of the builder's precomputation loop (worldgen.c lines
596-614): `anchor->x = j / CHUNK_SIZE` and `anchor->z = i / CHUNK_SIZE`
are C truncating divisions stored into `int16_t` fields, and hash and
biome are computed from the stored values. -/
def anchorAt (seed : Nat) (j i : Int) : ChunkAnchor :=
  let ax := toI16 (j.tdiv 16)
  let az := toI16 (i.tdiv 16)
  { x := ax, z := az, hash := getChunkHash seed ax az, biome := getChunkBiome seed ax az }

/-- The 2x2 anchor grid of buildChunkSectionInternal for
`CHUNK_SIZE = 16`: the loops `i = cz, cz+16` (outer) and `j = cx, cx+16`
(inner) fill `chunk_anchors[0..3]` in row-major order, so entry `k`
corresponds to offsets `(16 * (k % 2), 16 * (k / 2))`. -/
def sectionAnchor (seed : Nat) (cx cz : Int) (k : Nat) : ChunkAnchor :=
  anchorAt seed (cx + 16 * ((k % 2 : Nat) : Int)) (cz + 16 * ((k / 2 : Nat) : Int))

/-- The height map precomputation of buildChunkSectionInternal
(worldgen.c lines 617-623): for `CHUNK_SIZE = 16` the anchor index is 0
for every cell, so `chunk_section_height[rx][rz] =
getHeightAtFromAnchors(rx % 16, rz % 16, chunk_anchors)` with the four
anchors above. -/
def sectionHeight (seed : Nat) (cx cz : Int) (rx rz : Nat) : Nat :=
  getHeightAtFromAnchors (rx % 16) (rz % 16) (sectionAnchor seed cx cz 0)
    (sectionAnchor seed cx cz 1) (sectionAnchor seed cx cz 2) (sectionAnchor seed cx cz 3)

/-- Terrain content of `chunk_section[idx]` after the generation loop of
buildChunkSectionInternal (worldgen.c lines 628-717).  The unrolled loop
writes `chunk_section[j + s]` (for `j` a multiple of 8 and `s` in
`[0, 7]`) from the block at `rx = ((j % 16) + (7 - s)) & 15`; since
`j % 16` is 0 or 8 and `7 - s ≤ 7`, the X coordinate of index `idx` is
`(idx &&& 8) + (7 - (idx &&& 7))`, while `y = idx / 256 + cy` and
`rz = idx / 16 % 16` are as in the source.  For `CHUNK_SIZE = 16` both
`anchor_index` and `feature_index` are 0 everywhere, and the single
feature precomputed at lines 607-609 is the one of anchor 0. -/
def sectionTerrain (seed : Nat) (cx cy cz : Int) (idx : Nat) : Nat :=
  let rx := (idx &&& 8) + (7 - (idx &&& 7))
  let rz := idx / 16 % 16
  getTerrainAtFromCache ((rx : Int) + cx) ((idx / 256 : Nat) + cy) ((rz : Int) + cz)
    (rx % 16) (rz % 16) (sectionAnchor seed cx cz 0)
    (getFeatureFromAnchor seed (sectionAnchor seed cx cz 0)) (sectionHeight seed cx cz rx rz)

/-- Interleaved storage index of the protocol byte order:
`(address & ~7) | (7 - (address & 7))`, i.e. the low three bits of the
address are reversed; since `address & ~7 = address / 8 * 8` and the
reversed part is below 8, the bitwise or is a sum. -/
def interleavedIndex (address : Nat) : Nat := address / 8 * 8 + (7 - address % 8)

/-- Whether the overlay-application loop of the builder skips an entry:
tombstones, torches and (under ALLOW_CHESTS, spec section 4.6) chests
are never baked into bulk sections. -/
def bcSkip (ch : BlockChange) : Prop :=
  ch.block = 255 ∨ ch.block = B_torch ∨ ch.block = B_chest

instance (ch : BlockChange) : Decidable (bcSkip ch) := by
  unfold bcSkip
  infer_instance

/-- Whether a block change lies inside the section with origin
`(cx, cy, cz)` (the three bounds checks of the C loop, with the C
integer promotions of the `short`/`uint8_t` fields). -/
def bcInRange (ch : BlockChange) (cx cy cz : Int) : Prop :=
  cx ≤ ch.x ∧ ch.x < cx + 16 ∧ cy ≤ (ch.y : Int) ∧ (ch.y : Int) < cy + 16 ∧
    cz ≤ ch.z ∧ ch.z < cz + 16

instance (ch : BlockChange) (cx cy cz : Int) : Decidable (bcInRange ch cx cy cz) := by
  unfold bcInRange
  infer_instance

/-- Storage index written for an in-range block change:
`address = dx + (dz << 4) + (dy << 8)` followed by the interleaved
reversal. -/
def bcIndex (ch : BlockChange) (cx cy cz : Int) : Nat :=
  interleavedIndex ((ch.x - cx) + (ch.z - cz) * 16 + ((ch.y : Int) - cy) * 256).toNat

/-- The overlay application loop shared by buildChunkSectionInternal
(worldgen.c lines 725-762) and the cache-hit path of buildChunkSection
(lines 541-569): every applicable change is written at its interleaved
index, in array order. -/
def applyBlockChanges (changes : List BlockChange) (cx cy cz : Int)
    (sec : Nat → Nat) : Nat → Nat :=
  changes.foldl (fun s ch =>
    if bcSkip ch then s
    else if ¬bcInRange ch cx cy cz then s
    else fun k => if k = bcIndex ch cx cy cz then ch.block else s k) sec

/-- Contents of the scratch section after buildChunkSectionInternal:
synthesized terrain with the overlay applied on top. -/
def buildChunkSectionInternalData (seed : Nat) (changes : List BlockChange)
    (cx cy cz : Int) : Nat → Nat :=
  applyBlockChanges changes cx cy cz (sectionTerrain seed cx cy cz)

/-- Return value of buildChunkSectionInternal: the biome of anchor 0. -/
def buildChunkSectionInternalBiome (seed : Nat) (cx cz : Int) : Nat :=
  (sectionAnchor seed cx cz 0).biome

/-- Cache geometry of the non-Mac build of worldgen.c: 64 slots, probe
window 32. -/
def CHUNK_CACHE_SIZE : Nat := 64

/-- MAX_PROBE_DISTANCE from worldgen.c. -/
def MAX_PROBE_DISTANCE : Nat := 32

/-- CachedChunkSection from worldgen.c; the 4096-byte data array is a
function from indices to bytes, `lru_counter` is a `uint16_t` kept
reduced modulo 65536. -/
structure CachedChunkSection where
  cx : Int
  cy : Int
  cz : Int
  biome : Nat
  valid : Bool
  lru : Nat
  data : Nat → Nat

/-- The mutable cache state of worldgen.c: the slot array and the
`uint16_t` LRU clock. -/
structure ChunkCacheState where
  slots : Fin 64 → CachedChunkSection
  clock : Nat

/-- initChunkCache from worldgen.c: every slot invalid with a zero LRU
counter (the remaining fields are uninitialized in C and modelled as
zero). -/
def initChunkCache : ChunkCacheState :=
  { slots := fun _ =>
      { cx := 0, cy := 0, cz := 0, biome := 0, valid := false, lru := 0, data := fun _ => 0 },
    clock := 0 }

/-- chunkCacheHash from worldgen.c: the `int16_t` coordinates are
multiplied as C `int`s (overflow modelled as wraparound), cast to
`uint32_t`, xored and reduced modulo the cache size. -/
def chunkCacheHash (cx cy cz : Int) : Nat :=
  (i32bits (cx * 73856093) ^^^ i32bits (cy * 19349663) ^^^ i32bits (cz * 83492791)) % 64

/-- Probe slot `(hash + i) % CHUNK_CACHE_SIZE`. -/
def probeIdx (h i : Nat) : Fin 64 := ⟨(h + i) % 64, Nat.mod_lt _ (by norm_num)⟩

/-- findCacheEntry from worldgen.c: scan at most 32 slots from the home
position and return the first valid exact match. -/
def findCacheEntry (st : ChunkCacheState) (cx cy cz : Int) : Option (Fin 64) :=
  let h := chunkCacheHash cx cy cz
  (List.range 32).findSome? (fun i =>
    let idx := probeIdx h i
    let s := st.slots idx
    if s.valid = true ∧ s.cx = cx ∧ s.cy = cy ∧ s.cz = cz then some idx else none)

/-- findCacheSlot from worldgen.c: first pass looks for an invalid slot
in the probe window; otherwise the slot with the largest wrapped age
`(uint16_t)(clock - lru)` wins (strictly larger age replaces, starting
from the home slot with age 0). -/
def findCacheSlot (st : ChunkCacheState) (cx cy cz : Int) : Fin 64 :=
  let h := chunkCacheHash cx cy cz
  match (List.range 32).findSome? (fun i =>
      if (st.slots (probeIdx h i)).valid = false then some (probeIdx h i) else none) with
  | some idx => idx
  | none =>
    ((List.range 32).foldl (fun acc i =>
      let idx := probeIdx h i
      let age := (st.clock + 65536 - (st.slots idx).lru % 65536) % 65536
      if acc.2 < age then (idx, age) else acc) (probeIdx h 0, 0)).1

/-- buildChunkSection from worldgen.c (the public cached builder), as a
state transformer: returns the new cache state, the scratch
`chunk_section` contents and the biome.  On a hit the slot bytes are
copied into the scratch, the LRU counter is bumped and the overlay is
re-applied over the scratch; on a miss the internal builder output
(which already includes the overlay) is stored into the chosen slot.
The coordinates are narrowed to `int16_t` for all cache bookkeeping, as
in the source. -/
def buildChunkSection (seed : Nat) (changes : List BlockChange) (st : ChunkCacheState)
    (cx cy cz : Int) : ChunkCacheState × (Nat → Nat) × Nat :=
  let cx16 := toI16 cx
  let cy16 := toI16 cy
  let cz16 := toI16 cz
  match findCacheEntry st cx16 cy16 cz16 with
  | some idx =>
    let clock' := (st.clock + 1) % 65536
    let slot := st.slots idx
    let scratch := applyBlockChanges changes cx cy cz slot.data
    ({ slots := fun k => if k = idx then { slot with lru := clock' } else st.slots k,
       clock := clock' }, scratch, slot.biome)
  | none =>
    let scratch := buildChunkSectionInternalData seed changes cx cy cz
    let biome := buildChunkSectionInternalBiome seed cx cz
    let idx := findCacheSlot st cx16 cy16 cz16
    let clock' := (st.clock + 1) % 65536
    ({ slots := fun k => if k = idx then
         { cx := cx16, cy := cy16, cz := cz16, biome := biome, valid := true,
           lru := clock', data := scratch } else st.slots k,
       clock := clock' }, scratch, biome)

/-- In the mangrove swamp the corner height is the base height 64 plus
four mod-3 residues of the shifted hash; since that sum is nonnegative
the result never drops below 64 and the pond-subtraction branch of the
source is never taken. -/
lemma getCornerHeight_mangrove (hash : Nat) :
    getCornerHeight hash W_mangrove_swamp =
      64 + (hash % 3 + (hash >>> 4) % 3 + (hash >>> 8) % 3 + (hash >>> 12) % 3) := by
  have h1 : hash % 3 < 3 := Nat.mod_lt _ (by norm_num)
  have h2 : (hash >>> 4) % 3 < 3 := Nat.mod_lt _ (by norm_num)
  have h3 : (hash >>> 8) % 3 < 3 := Nat.mod_lt _ (by norm_num)
  have h4 : (hash >>> 12) % 3 < 3 := Nat.mod_lt _ (by norm_num)
  rw [getCornerHeight, if_pos rfl]
  simp only [TERRAIN_BASE_HEIGHT, u8]
  rw [Nat.mod_eq_of_lt (by omega :
    64 + (hash % 3 + (hash >>> 4) % 3 + (hash >>> 8) % 3 + (hash >>> 12) % 3) < 256)]
  rw [if_neg (by omega)]

lemma getCornerHeight_bounds (hash biome : Nat) :
    53 ≤ getCornerHeight hash biome ∧ getCornerHeight hash biome ≤ 78 := by
  by_cases hbm : biome = W_mangrove_swamp
  · subst hbm
    rw [getCornerHeight_mangrove]
    have h1 : hash % 3 < 3 := Nat.mod_lt _ (by norm_num)
    have h2 : (hash >>> 4) % 3 < 3 := Nat.mod_lt _ (by norm_num)
    have h3 : (hash >>> 8) % 3 < 3 := Nat.mod_lt _ (by norm_num)
    have h4 : (hash >>> 12) % 3 < 3 := Nat.mod_lt _ (by norm_num)
    omega
  · have a1 : hash &&& 3 ≤ 3 := Nat.and_le_right
    have a2 : (hash >>> 4) &&& 3 ≤ 3 := Nat.and_le_right
    have a3 : (hash >>> 8) &&& 3 ≤ 3 := Nat.and_le_right
    have a4 : (hash >>> 12) &&& 3 ≤ 3 := Nat.and_le_right
    have b1 : hash &&& 7 ≤ 7 := Nat.and_le_right
    have b2 : (hash >>> 4) &&& 7 ≤ 7 := Nat.and_le_right
    simp only [getCornerHeight, TERRAIN_BASE_HEIGHT, u8]
    rw [if_neg hbm]
    split_ifs <;> omega

lemma interpolate_bounds (a b c d x z : Nat)
    (ha : 53 ≤ a ∧ a ≤ 78) (hb : 53 ≤ b ∧ b ≤ 78)
    (hc : 53 ≤ c ∧ c ≤ 78) (hd : 53 ≤ d ∧ d ≤ 78)
    (hx : x ≤ 16) (hz : z ≤ 16) :
    53 ≤ interpolate a b c d x z ∧ interpolate a b c d x z ≤ 78 := by
  have key : ∀ p q w : Nat, 53 ≤ p → p ≤ 78 → 53 ≤ q → q ≤ 78 → w ≤ 16 →
      848 ≤ p * (16 - w) + q * w ∧ p * (16 - w) + q * w ≤ 1248 := by
    intro p q w hp1 hp2 hq1 hq2 hw
    constructor
    · calc (848 : Nat) = 53 * ((16 - w) + w) := by rw [Nat.sub_add_cancel hw]
        _ = 53 * (16 - w) + 53 * w := by ring
        _ ≤ p * (16 - w) + q * w :=
          Nat.add_le_add (Nat.mul_le_mul_right _ hp1) (Nat.mul_le_mul_right _ hq1)
    · calc p * (16 - w) + q * w ≤ 78 * (16 - w) + 78 * w :=
          Nat.add_le_add (Nat.mul_le_mul_right _ hp2) (Nat.mul_le_mul_right _ hq2)
        _ = 78 * ((16 - w) + w) := by ring
        _ = 1248 := by rw [Nat.sub_add_cancel hw]
  have htop := key a b x ha.1 ha.2 hb.1 hb.2 hx
  have hbot := key c d x hc.1 hc.2 hd.1 hd.2 hx
  simp only [interpolate, u16, u8]
  rw [Nat.mod_eq_of_lt (by omega : a * (16 - x) + b * x < 65536),
      Nat.mod_eq_of_lt (by omega : c * (16 - x) + d * x < 65536)]
  have keyn : ∀ p q w : Nat, 848 ≤ p → p ≤ 1248 → 848 ≤ q → q ≤ 1248 → w ≤ 16 →
      13568 ≤ p * (16 - w) + q * w ∧ p * (16 - w) + q * w ≤ 19968 := by
    intro p q w hp1 hp2 hq1 hq2 hw
    constructor
    · calc (13568 : Nat) = 848 * ((16 - w) + w) := by rw [Nat.sub_add_cancel hw]
        _ = 848 * (16 - w) + 848 * w := by ring
        _ ≤ p * (16 - w) + q * w :=
          Nat.add_le_add (Nat.mul_le_mul_right _ hp1) (Nat.mul_le_mul_right _ hq1)
    · calc p * (16 - w) + q * w ≤ 1248 * (16 - w) + 1248 * w :=
          Nat.add_le_add (Nat.mul_le_mul_right _ hp2) (Nat.mul_le_mul_right _ hq2)
        _ = 1248 * ((16 - w) + w) := by ring
        _ = 19968 := by rw [Nat.sub_add_cancel hw]
  have hnum := keyn _ _ z htop.1 htop.2 hbot.1 hbot.2 hz
  have hdiv1 : 53 ≤ (a * (16 - x) + b * x) * (16 - z) + (c * (16 - x) + d * x) * z :=
    le_trans (by norm_num) hnum.1
  have hq1 : 53 ≤ ((a * (16 - x) + b * x) * (16 - z) + (c * (16 - x) + d * x) * z) / 256 :=
    (Nat.le_div_iff_mul_le (by norm_num)).mpr (by omega)
  have hq2 : ((a * (16 - x) + b * x) * (16 - z) + (c * (16 - x) + d * x) * z) / 256 ≤ 78 := by
    have := Nat.div_le_div_right (c := 256) hnum.2
    simpa using this
  constructor
  · rw [Nat.mod_eq_of_lt (by omega)]
    exact hq1
  · rw [Nat.mod_eq_of_lt (by omega)]
    exact hq2

lemma getHeightAtFromAnchors_bounds (rx rz : Nat) (a0 a1 a2 a3 : ChunkAnchor)
    (hx : rx ≤ 16) (hz : rz ≤ 16) :
    53 ≤ getHeightAtFromAnchors rx rz a0 a1 a2 a3 ∧
      getHeightAtFromAnchors rx rz a0 a1 a2 a3 ≤ 78 := by
  have h0 := getCornerHeight_bounds a0.hash a0.biome
  have h1 := getCornerHeight_bounds a1.hash a1.biome
  have h2 := getCornerHeight_bounds a2.hash a2.biome
  have h3 := getCornerHeight_bounds a3.hash a3.biome
  unfold getHeightAtFromAnchors
  split_ifs with h
  · omega
  · exact interpolate_bounds _ _ _ _ _ _ h0 h1 h2 h3 hx hz

lemma getHeightAtFromHash_bounds (seed : Nat) (rx rz : Nat) (cx cz : Int)
    (chunk_hash biome : Nat) (hx : rx ≤ 16) (hz : rz ≤ 16) :
    53 ≤ getHeightAtFromHash seed rx rz cx cz chunk_hash biome ∧
      getHeightAtFromHash seed rx rz cx cz chunk_hash biome ≤ 78 := by
  have h0 := getCornerHeight_bounds chunk_hash biome
  have h1 := getCornerHeight_bounds (getChunkHash seed (cx + 1) cz) (getChunkBiome seed (cx + 1) cz)
  have h2 := getCornerHeight_bounds (getChunkHash seed cx (cz + 1)) (getChunkBiome seed cx (cz + 1))
  have h3 := getCornerHeight_bounds (getChunkHash seed (cx + 1) (cz + 1))
    (getChunkBiome seed (cx + 1) (cz + 1))
  unfold getHeightAtFromHash
  split_ifs with h
  · omega
  · exact interpolate_bounds _ _ _ _ _ _ h0 h1 h2 h3 hx hz

lemma modAbs16_toNat_le (a : Int) : (mod_abs a 16).toNat ≤ 15 := by
  rw [mod_abs_16]
  omega

lemma u8_height_succ_le (seed : Nat) (rx rz : Nat) (cx cz : Int) (h b : Nat)
    (hx : rx ≤ 16) (hz : rz ≤ 16) :
    u8 (getHeightAtFromHash seed rx rz cx cz h b + 1) ≤ 79 := by
  have hb := getHeightAtFromHash_bounds seed rx rz cx cz h b hx hz
  unfold u8
  omega

lemma getFeatureFromAnchor_bounds (seed : Nat) (anchor : ChunkAnchor) :
    (getFeatureFromAnchor seed anchor).y = 255 ∨
      ((getFeatureFromAnchor seed anchor).y ≤ 79 ∧
        (getFeatureFromAnchor seed anchor).variant ≤ 1) := by
  simp only [getFeatureFromAnchor]
  split_ifs with h
  · left
    rfl
  · right
    exact ⟨u8_height_succ_le _ _ _ _ _ _ _
      (le_trans (modAbs16_toNat_le _) (by norm_num))
      (le_trans (modAbs16_toNat_le _) (by norm_num)), Nat.and_le_right⟩

lemma sectionHeight_bounds (seed : Nat) (cx cz : Int) (rx rz : Nat) :
    53 ≤ sectionHeight seed cx cz rx rz ∧ sectionHeight seed cx cz rx rz ≤ 78 := by
  unfold sectionHeight
  exact getHeightAtFromAnchors_bounds _ _ _ _ _ _
    (le_trans (Nat.le_of_lt (Nat.mod_lt _ (by norm_num))) (by norm_num))
    (le_trans (Nat.le_of_lt (Nat.mod_lt _ (by norm_num))) (by norm_num))


lemma toI8_small (v : Int) (h1 : -128 ≤ v) (h2 : v ≤ 127) : toI8 v = v := by
  unfold toI8
  omega

lemma caveGap_eq (height : Nat) (h1 : 53 ≤ height) (h2 : height ≤ 78) :
    caveGap height = (height : Int) - 64 := by
  unfold caveGap
  rw [show ((TERRAIN_BASE_HEIGHT : Nat) : Int) = 64 from rfl]
  exact toI8_small _ (by omega) (by omega)

lemma featureBlockAt_none_of_neg (x y z : Int) (anchor : ChunkAnchor)
    (feature : ChunkFeature) (height : Nat) (hy : y < 0) :
    featureBlockAt x y z anchor feature height = none := by
  unfold featureBlockAt
  rw [if_pos]
  intro h
  omega

lemma getTerrainAtFromCache_stone_of_neg (x y z : Int) (rx rz : Nat)
    (anchor : ChunkAnchor) (feature : ChunkFeature) (height : Nat)
    (hh1 : 53 ≤ height) (hh2 : height ≤ 78) (hy : y < 0) :
    getTerrainAtFromCache x y z rx rz anchor feature height = B_stone := by
  unfold getTerrainAtFromCache
  rw [featureBlockAt_none_of_neg x y z anchor feature height hy]
  rw [caveGap_eq height hh1 hh2]
  rw [show (CAVE_BASE_DEPTH : Int) = 32 from rfl]
  rw [if_neg (by omega : ¬(63 ≤ height ∧ y = (height : Int)))]
  rw [if_neg (show ¬(63 ≤ height ∧ anchor.biome = W_snowy_plains ∧ y = (height : Int) + 1) by
    intro h
    omega)]
  rw [if_pos (by omega : y ≤ (height : Int) - 4)]
  rw [if_neg (by omega : ¬(y < 32 + ((height : Int) - 64) ∧ 32 - ((height : Int) - 64) < y))]
  rw [if_neg (by omega : ¬(y = ((oreColumnY rx rz : Nat) : Int)))]

set_option maxHeartbeats 3200000 in
lemma featureBlockAt_high (x y z : Int) (anchor : ChunkAnchor)
    (feature : ChunkFeature) (height : Nat) (hh2 : height ≤ 78)
    (hf : feature.y = 255 ∨ (feature.y ≤ 79 ∧ feature.variant ≤ 1)) (hy : 86 ≤ y) :
    featureBlockAt x y z anchor feature height = none ∨
      featureBlockAt x y z anchor feature height = some B_air := by
  unfold featureBlockAt
  rcases hf with hf | hf
  · left
    rw [if_pos]
    intro h
    exact h.2.2 hf
  · split_ifs <;> first
      | (left; rfl)
      | (right; rfl)
      | omega

set_option maxHeartbeats 1600000 in
lemma getTerrainAtFromCache_air_of_high (x y z : Int) (rx rz : Nat)
    (anchor : ChunkAnchor) (feature : ChunkFeature) (height : Nat)
    (hh2 : height ≤ 78)
    (hf : feature.y = 255 ∨ (feature.y ≤ 79 ∧ feature.variant ≤ 1)) (hy : 86 ≤ y) :
    getTerrainAtFromCache x y z rx rz anchor feature height = B_air := by
  unfold getTerrainAtFromCache
  rcases featureBlockAt_high x y z anchor feature height hh2 hf hy with hfb | hfb <;>
    rw [hfb]
  rw [if_neg (by omega : ¬(63 ≤ height ∧ y = (height : Int)))]
  rw [if_neg (show ¬(63 ≤ height ∧ anchor.biome = W_snowy_plains ∧ y = (height : Int) + 1) by
    intro h
    omega)]
  rw [if_neg (by omega : ¬(y ≤ (height : Int) - 4))]
  rw [if_neg (by omega : ¬(y ≤ (height : Int)))]
  rw [if_neg (show ¬(y = 63 ∧ anchor.biome = W_snowy_plains) by
    intro h
    omega)]
  rw [if_neg (by omega : ¬(y < 64))]

/-- A block change writes byte `k` of the section at `(cx, cy, cz)` when
it is not skipped, lies in the section and maps to index `k`. -/
def bcWrites (ch : BlockChange) (cx cy cz : Int) (k : Nat) : Prop :=
  ¬bcSkip ch ∧ bcInRange ch cx cy cz ∧ bcIndex ch cx cy cz = k

instance (ch : BlockChange) (cx cy cz : Int) (k : Nat) :
    Decidable (bcWrites ch cx cy cz k) := by
  unfold bcWrites
  infer_instance

lemma applyBlockChanges_apply (changes : List BlockChange) (cx cy cz : Int)
    (sec : Nat → Nat) (k : Nat) :
    applyBlockChanges changes cx cy cz sec k =
      changes.foldl (fun v ch => if bcWrites ch cx cy cz k then ch.block else v) (sec k) := by
  induction changes generalizing sec with
  | nil => rfl
  | cons ch t ih =>
    unfold applyBlockChanges at ih ⊢
    rw [List.foldl_cons, List.foldl_cons, ih]
    congr 1
    by_cases hs : bcSkip ch
    · rw [if_pos hs, if_neg (by unfold bcWrites; tauto)]
    · rw [if_neg hs]
      by_cases hr : bcInRange ch cx cy cz
      · rw [if_neg (by tauto)]
        by_cases hk : k = bcIndex ch cx cy cz
        · rw [if_pos hk, if_pos ⟨hs, hr, hk.symm⟩]
        · rw [if_neg hk, if_neg (by unfold bcWrites; intro h; exact hk h.2.2.symm)]
      · rw [if_pos (by tauto), if_neg (by unfold bcWrites; tauto)]

lemma foldl_writes_keep (t : List BlockChange) (cx cy cz : Int) (k : Nat) (b : Nat)
    (hall : ∀ ch ∈ t, bcWrites ch cx cy cz k → ch.block = b) :
    t.foldl (fun v ch => if bcWrites ch cx cy cz k then ch.block else v) b = b := by
  induction t with
  | nil => rfl
  | cons ch t ih =>
    rw [List.foldl_cons]
    by_cases hw : bcWrites ch cx cy cz k
    · rw [if_pos hw, hall ch (by simp) hw]
      exact ih (fun e he hw' => hall e (List.mem_cons_of_mem ch he) hw')
    · rw [if_neg hw]
      exact ih (fun e he hw' => hall e (List.mem_cons_of_mem ch he) hw')

lemma foldl_writes_result (t : List BlockChange) (cx cy cz : Int) (k : Nat) (b : Nat) :
    ∀ v : Nat, (∃ ch ∈ t, bcWrites ch cx cy cz k) →
      (∀ ch ∈ t, bcWrites ch cx cy cz k → ch.block = b) →
      t.foldl (fun v ch => if bcWrites ch cx cy cz k then ch.block else v) v = b := by
  induction t with
  | nil =>
    intro v hex _
    exact absurd hex (by simp)
  | cons ch t ih =>
    intro v hex hall
    rw [List.foldl_cons]
    by_cases hw : bcWrites ch cx cy cz k
    · rw [if_pos hw, hall ch (by simp) hw]
      exact foldl_writes_keep t cx cy cz k b
        (fun e he hw' => hall e (List.mem_cons_of_mem ch he) hw')
    · rw [if_neg hw]
      rcases hex with ⟨e, he, hwe⟩
      rcases List.mem_cons.mp he with rfl | he'
      · exact absurd hwe hw
      · exact ih v ⟨e, he', hwe⟩ (fun e' he' hw' => hall e' (List.mem_cons_of_mem ch he') hw')

lemma applyBlockChanges_eq_block (changes : List BlockChange) (cx cy cz : Int)
    (sec : Nat → Nat) (k : Nat) (b : Nat)
    (hex : ∃ ch ∈ changes, bcWrites ch cx cy cz k)
    (hall : ∀ ch ∈ changes, bcWrites ch cx cy cz k → ch.block = b) :
    applyBlockChanges changes cx cy cz sec k = b := by
  rw [applyBlockChanges_apply]
  exact foldl_writes_result changes cx cy cz k b (sec k) hex hall

lemma applyBlockChanges_id_of_miss (changes : List BlockChange) (cx cy cz : Int)
    (sec : Nat → Nat) (k : Nat)
    (hall : ∀ ch ∈ changes, ¬bcWrites ch cx cy cz k) :
    applyBlockChanges changes cx cy cz sec k = sec k := by
  rw [applyBlockChanges_apply]
  induction changes with
  | nil => rfl
  | cons ch t ih =>
    rw [List.foldl_cons, if_neg (hall ch (by simp))]
    exact ih (fun e he => hall e (List.mem_cons_of_mem ch he))

lemma applyBlockChanges_out_of_section (changes : List BlockChange) (cx cy cz : Int)
    (sec : Nat → Nat) (hcy : cy + 16 ≤ 0) :
    applyBlockChanges changes cx cy cz sec = sec := by
  induction changes generalizing sec with
  | nil => rfl
  | cons ch t ih =>
    unfold applyBlockChanges at ih ⊢
    rw [List.foldl_cons]
    by_cases hs : bcSkip ch
    · rw [if_pos hs]
      exact ih sec
    · rw [if_neg hs, if_pos]
      · exact ih sec
      · unfold bcInRange
        intro h
        have := h.2.2.2.1
        omega

lemma interleavedIndex_inj (a a' : Nat) (h : interleavedIndex a = interleavedIndex a') :
    a = a' := by
  unfold interleavedIndex at h
  omega

lemma bcIndex_inj (ch ch' : BlockChange) (cx cy cz : Int)
    (h1 : bcInRange ch cx cy cz) (h2 : bcInRange ch' cx cy cz)
    (he : bcIndex ch cx cy cz = bcIndex ch' cx cy cz) :
    ch.x = ch'.x ∧ ch.y = ch'.y ∧ ch.z = ch'.z := by
  unfold bcInRange at h1 h2
  unfold bcIndex at he
  have ha := interleavedIndex_inj _ _ he
  omega

/-- Strict `(x, z, y)` ordering between overlay entries (the sort order
of compareBlockChangeCoords). -/
def bcLt (a b : BlockChange) : Prop :=
  a.x < b.x ∨ (a.x = b.x ∧ (a.z < b.z ∨ (a.z = b.z ∧ a.y < b.y)))

instance (a b : BlockChange) : Decidable (bcLt a b) := by
  unfold bcLt
  infer_instance

/-- Entry key equals the target key `(x, z, y)`. -/
def bcKeyEq (e : BlockChange) (x : Int) (y : Nat) (z : Int) : Prop :=
  e.x = x ∧ e.y = y ∧ e.z = z

instance (e : BlockChange) (x : Int) (y : Nat) (z : Int) : Decidable (bcKeyEq e x y z) := by
  unfold bcKeyEq
  infer_instance

/-- Entry key strictly below the target key. -/
def bcLtKey (e : BlockChange) (x : Int) (y : Nat) (z : Int) : Prop :=
  e.x < x ∨ (e.x = x ∧ (e.z < z ∨ (e.z = z ∧ e.y < y)))

/-- Entry key strictly above the target key. -/
def bcGtKey (e : BlockChange) (x : Int) (y : Nat) (z : Int) : Prop :=
  x < e.x ∨ (x = e.x ∧ (z < e.z ∨ (z = e.z ∧ y < e.y)))

/-- The overlay invariant of the spec: strictly sorted by `(x, z, y)`
(hence duplicate-free keys) and free of tombstones. -/
def OverlayInv (l : List BlockChange) : Prop :=
  l.Pairwise bcLt ∧ ∀ e ∈ l, e.block ≠ 255

lemma cmp_eq_zero_iff (x : Int) (y : Nat) (z : Int) (e : BlockChange) :
    compareBlockChangeCoords x y z e.x e.y e.z = 0 ↔ bcKeyEq e x y z := by
  unfold compareBlockChangeCoords bcKeyEq
  split_ifs <;> (try simp only [false_iff, true_iff, iff_false, iff_true]) <;> omega

lemma cmp_neg_iff (x : Int) (y : Nat) (z : Int) (e : BlockChange) :
    compareBlockChangeCoords x y z e.x e.y e.z < 0 ↔ bcGtKey e x y z := by
  unfold compareBlockChangeCoords bcGtKey
  split_ifs <;> (try simp only [false_iff, true_iff, iff_false, iff_true]) <;> omega

lemma cmp_pos_iff (x : Int) (y : Nat) (z : Int) (e : BlockChange) :
    0 < compareBlockChangeCoords x y z e.x e.y e.z ↔ bcLtKey e x y z := by
  unfold compareBlockChangeCoords bcLtKey
  split_ifs <;> (try simp only [false_iff, true_iff, iff_false, iff_true]) <;> omega

lemma bcLt_ltKey_trans (a b : BlockChange) (x : Int) (y : Nat) (z : Int)
    (h1 : bcLt a b) (h2 : bcLtKey b x y z) : bcLtKey a x y z := by
  unfold bcLt at h1
  unfold bcLtKey at h2 ⊢
  omega

lemma bcGt_lt_trans (a b : BlockChange) (x : Int) (y : Nat) (z : Int)
    (h1 : bcGtKey a x y z) (h2 : bcLt a b) : bcGtKey b x y z := by
  unfold bcLt at h2
  unfold bcGtKey at h1 ⊢
  omega

lemma bcLtKey_not_eq (e : BlockChange) (x : Int) (y : Nat) (z : Int)
    (h : bcLtKey e x y z) : ¬bcKeyEq e x y z := by
  unfold bcLtKey at h
  unfold bcKeyEq
  omega

lemma bcGtKey_not_eq (e : BlockChange) (x : Int) (y : Nat) (z : Int)
    (h : bcGtKey e x y z) : ¬bcKeyEq e x y z := by
  unfold bcGtKey at h
  unfold bcKeyEq
  omega

lemma sorted_getD_lt (l : List BlockChange) (hs : l.Pairwise bcLt) (i j : Nat)
    (hj : j < l.length) (hij : i < j) :
    bcLt (l.getD i bcDummy) (l.getD j bcDummy) := by
  have hi : i < l.length := lt_trans hij hj
  rw [List.getD_eq_getElem l bcDummy hi, List.getD_eq_getElem l bcDummy hj]
  exact List.pairwise_iff_getElem.mp hs i j hi hj hij

lemma skipTombstones_id (l : List BlockChange) (hnt : ∀ e ∈ l, e.block ≠ 255)
    (fuel : Nat) (am r : Int) (ham : 0 ≤ am) (hr : r < (l.length : Int)) :
    skipTombstones l fuel am r = am := by
  cases fuel with
  | zero => rfl
  | succ fuel =>
    unfold skipTombstones
    rw [if_neg]
    intro h
    have hlt : am.toNat < l.length := by omega
    rw [List.getD_eq_getElem l bcDummy hlt] at h
    exact hnt _ (List.getElem_mem hlt) h.2

lemma cmp_trichotomy (x : Int) (y : Nat) (z : Int) (e : BlockChange) :
    compareBlockChangeCoords x y z e.x e.y e.z = 0 ∨
      compareBlockChangeCoords x y z e.x e.y e.z < 0 ∨
      0 < compareBlockChangeCoords x y z e.x e.y e.z := by
  omega

lemma bsearch_spec (l : List BlockChange) (x : Int) (y : Nat) (z : Int)
    (hinv : OverlayInv l) :
    ∀ (fuel : Nat) (left right : Int),
      0 ≤ left → left ≤ (l.length : Int) → right < (l.length : Int) →
      (right + 1 - left).toNat < fuel →
      (∀ j : Nat, (j : Int) < left → j < l.length → bcLtKey (l.getD j bcDummy) x y z) →
      (∀ j : Nat, right < (j : Int) → j < l.length → bcGtKey (l.getD j bcDummy) x y z) →
      (∀ i : Nat, (binarySearchBlockChange l x y z fuel left right).1 = some i →
        i < l.length ∧ bcKeyEq (l.getD i bcDummy) x y z) ∧
      ((binarySearchBlockChange l x y z fuel left right).1 = none →
        0 ≤ (binarySearchBlockChange l x y z fuel left right).2 ∧
        (binarySearchBlockChange l x y z fuel left right).2 ≤ (l.length : Int) ∧
        (∀ j : Nat, (j : Int) < (binarySearchBlockChange l x y z fuel left right).2 →
          j < l.length → bcLtKey (l.getD j bcDummy) x y z) ∧
        (∀ j : Nat, (binarySearchBlockChange l x y z fuel left right).2 ≤ (j : Int) →
          j < l.length → bcGtKey (l.getD j bcDummy) x y z)) := by
  intro fuel
  induction fuel with
  | zero =>
    intro left right hl hlub hr hfuel hlo hhi
    exact absurd hfuel (by omega)
  | succ fuel ih =>
    intro left right hl hlub hr hfuel hlo hhi
    by_cases hlr : left ≤ right
    · have hmid1 : left ≤ left + (right - left) / 2 := by omega
      have hmid2 : left + (right - left) / 2 ≤ right := by omega
      have hskip := skipTombstones_id l hinv.2 (l.length + 1) (left + (right - left) / 2)
        right (by omega) hr
      have hmidlt : (left + (right - left) / 2).toNat < l.length := by omega
      rcases cmp_trichotomy x y z (l.getD (left + (right - left) / 2).toNat bcDummy)
        with hc0 | hcneg | hcpos
      · have hres : binarySearchBlockChange l x y z (fuel + 1) left right =
            (some (left + (right - left) / 2).toNat, left) := by
          simp only [binarySearchBlockChange]
          rw [if_pos hlr, hskip, if_neg (by omega : ¬right < left + (right - left) / 2),
            if_pos hc0]
        rw [hres]
        constructor
        · intro i hi
          have hmi : (left + (right - left) / 2).toNat = i := Option.some.inj hi
          subst hmi
          exact ⟨hmidlt, (cmp_eq_zero_iff x y z _).mp hc0⟩
        · intro hcontra
          exact absurd hcontra (by simp)
      · have hres : binarySearchBlockChange l x y z (fuel + 1) left right =
            binarySearchBlockChange l x y z fuel left (left + (right - left) / 2 - 1) := by
          simp only [binarySearchBlockChange]
          rw [if_pos hlr, hskip, if_neg (by omega : ¬right < left + (right - left) / 2),
            if_neg (by omega), if_pos hcneg]
        rw [hres]
        have hgt : bcGtKey (l.getD (left + (right - left) / 2).toNat bcDummy) x y z :=
          (cmp_neg_iff x y z _).mp hcneg
        refine ih left (left + (right - left) / 2 - 1) hl hlub (by omega) (by omega) hlo ?_
        intro j hj hjl
        by_cases hjm : (j : Int) ≤ right
        · have hjge : (left + (right - left) / 2).toNat ≤ j := by omega
          rcases Nat.eq_or_lt_of_le hjge with hje | hjlt
          · rw [← hje]
            exact hgt
          · exact bcGt_lt_trans _ _ x y z hgt (sorted_getD_lt l hinv.1 _ j hjl hjlt)
        · exact hhi j (by omega) hjl
      · have hres : binarySearchBlockChange l x y z (fuel + 1) left right =
            binarySearchBlockChange l x y z fuel (left + (right - left) / 2 + 1) right := by
          simp only [binarySearchBlockChange]
          rw [if_pos hlr, hskip, if_neg (by omega : ¬right < left + (right - left) / 2),
            if_neg (by omega), if_neg (by omega)]
        rw [hres]
        have hlt : bcLtKey (l.getD (left + (right - left) / 2).toNat bcDummy) x y z :=
          (cmp_pos_iff x y z _).mp hcpos
        refine ih (left + (right - left) / 2 + 1) right (by omega) (by omega) hr (by omega)
          ?_ hhi
        intro j hj hjl
        by_cases hjm : (j : Int) < left
        · exact hlo j hjm hjl
        · rcases Nat.eq_or_lt_of_le (show j ≤ (left + (right - left) / 2).toNat by omega)
            with hje | hjlt
          · rw [hje]
            exact hlt
          · exact bcLt_ltKey_trans _ _ x y z (sorted_getD_lt l hinv.1 j _ hmidlt hjlt) hlt
    · have hres : binarySearchBlockChange l x y z (fuel + 1) left right = (none, left) := by
        simp only [binarySearchBlockChange]
        rw [if_neg hlr]
      rw [hres]
      constructor
      · intro i hi
        exact absurd hi (by simp)
      · intro _
        exact ⟨hl, hlub, fun j hj hjl => hlo j hj hjl, fun j hj hjl => hhi j (by omega) hjl⟩

lemma bsearchTop_spec (l : List BlockChange) (x : Int) (y : Nat) (z : Int)
    (hinv : OverlayInv l) :
    (∀ i : Nat, (bsearchTop l x y z).1 = some i →
      i < l.length ∧ bcKeyEq (l.getD i bcDummy) x y z) ∧
    ((bsearchTop l x y z).1 = none →
      0 ≤ (bsearchTop l x y z).2 ∧ (bsearchTop l x y z).2 ≤ (l.length : Int) ∧
      (∀ j : Nat, (j : Int) < (bsearchTop l x y z).2 → j < l.length →
        bcLtKey (l.getD j bcDummy) x y z) ∧
      (∀ j : Nat, (bsearchTop l x y z).2 ≤ (j : Int) → j < l.length →
        bcGtKey (l.getD j bcDummy) x y z)) := by
  unfold bsearchTop
  exact bsearch_spec l x y z hinv (l.length + 1) 0 ((l.length : Int) - 1)
    (by omega) (by omega) (by omega) (by omega)
    (fun j hj _ => absurd hj (by omega))
    (fun j hj hjl => absurd hj (by push_cast; omega))

lemma key_unique (l : List BlockChange) (hs : l.Pairwise bcLt) (x : Int) (y : Nat) (z : Int)
    (e1 e2 : BlockChange) (h1 : e1 ∈ l) (h2 : e2 ∈ l)
    (hk1 : bcKeyEq e1 x y z) (hk2 : bcKeyEq e2 x y z) : e1 = e2 := by
  rcases List.mem_iff_getElem.mp h1 with ⟨i1, hl1, he1⟩
  rcases List.mem_iff_getElem.mp h2 with ⟨i2, hl2, he2⟩
  rcases Nat.lt_trichotomy i1 i2 with h | h | h
  · exfalso
    have hlt := List.pairwise_iff_getElem.mp hs i1 i2 hl1 hl2 h
    rw [he1, he2] at hlt
    unfold bcLt at hlt
    unfold bcKeyEq at hk1 hk2
    omega
  · subst h
    exact he1.symm.trans he2
  · exfalso
    have hlt := List.pairwise_iff_getElem.mp hs i2 i1 hl2 hl1 h
    rw [he1, he2] at hlt
    unfold bcLt at hlt
    unfold bcKeyEq at hk1 hk2
    omega

lemma getBlockChange_found (l : List BlockChange) (x : Int) (y : Nat) (z : Int) (i : Nat)
    (h : (bsearchTop l x y z).1 = some i) :
    getBlockChange l x y z =
      if (l.getD i bcDummy).block ≠ 255 then (l.getD i bcDummy).block else 255 := by
  unfold getBlockChange
  rw [h]

lemma getBlockChange_none (l : List BlockChange) (x : Int) (y : Nat) (z : Int)
    (h : (bsearchTop l x y z).1 = none) : getBlockChange l x y z = 255 := by
  unfold getBlockChange
  rw [h]

lemma insert_eq_found (l : List BlockChange) (x : Int) (y : Nat) (z : Int) (b : Nat) (i : Nat)
    (h : (bsearchTop l x y z).1 = some i) :
    insertBlockChangeSorted l x y z b =
      if b = 255 then (0, l.take i ++ l.drop (i + 1))
      else (0, l.set i { l.getD i bcDummy with block := b }) := by
  simp only [insertBlockChangeSorted]
  rw [h]

lemma insert_eq_none (l : List BlockChange) (x : Int) (y : Nat) (z : Int) (b : Nat)
    (h : (bsearchTop l x y z).1 = none) :
    insertBlockChangeSorted l x y z b =
      if b = 255 then (0, l)
      else if MAX_BLOCK_CHANGES ≤ l.length then (1, l)
      else (0, l.take (bsearchTop l x y z).2.toNat ++
        { x := x, y := y, z := z, block := b } :: l.drop (bsearchTop l x y z).2.toNat) := by
  simp only [insertBlockChangeSorted]
  rw [h]

lemma getBlockChange_of_mem (l : List BlockChange) (hinv : OverlayInv l)
    (x : Int) (y : Nat) (z : Int) (e : BlockChange) (he : e ∈ l) (hk : bcKeyEq e x y z) :
    getBlockChange l x y z = e.block := by
  rcases hres : (bsearchTop l x y z).1 with _ | i
  · exfalso
    have hnone := (bsearchTop_spec l x y z hinv).2 hres
    rcases List.mem_iff_getElem.mp he with ⟨j, hj, hej⟩
    by_cases hjp : (j : Int) < (bsearchTop l x y z).2
    · have hlt := hnone.2.2.1 j hjp hj
      rw [List.getD_eq_getElem l bcDummy hj, hej] at hlt
      exact bcLtKey_not_eq e x y z hlt hk
    · have hgt := hnone.2.2.2 j (by omega) hj
      rw [List.getD_eq_getElem l bcDummy hj, hej] at hgt
      exact bcGtKey_not_eq e x y z hgt hk
  · have hf := (bsearchTop_spec l x y z hinv).1 i hres
    have hmem : l.getD i bcDummy ∈ l := by
      rw [List.getD_eq_getElem l bcDummy hf.1]
      exact List.getElem_mem hf.1
    have heq : l.getD i bcDummy = e := key_unique l hinv.1 x y z _ e hmem he hf.2 hk
    rw [getBlockChange_found l x y z i hres, heq, if_pos (hinv.2 e he)]

lemma getBlockChange_of_absent (l : List BlockChange) (hinv : OverlayInv l)
    (x : Int) (y : Nat) (z : Int) (habs : ∀ e ∈ l, ¬bcKeyEq e x y z) :
    getBlockChange l x y z = 255 := by
  rcases hres : (bsearchTop l x y z).1 with _ | i
  · exact getBlockChange_none l x y z hres
  · exfalso
    have hf := (bsearchTop_spec l x y z hinv).1 i hres
    have hmem : l.getD i bcDummy ∈ l := by
      rw [List.getD_eq_getElem l bcDummy hf.1]
      exact List.getElem_mem hf.1
    exact habs _ hmem hf.2

/-- Membership in the overlay of an entry with a given key. -/
def KeyIn (l : List BlockChange) (x : Int) (y : Nat) (z : Int) : Prop :=
  ∃ e ∈ l, bcKeyEq e x y z

lemma erase_sublist (l : List BlockChange) (i : Nat) (h : i < l.length) :
    List.Sublist (l.take i ++ l.drop (i + 1)) l := by
  conv_rhs => rw [← List.take_append_drop i l]
  refine List.Sublist.append (List.Sublist.refl _) ?_
  rw [List.drop_eq_getElem_cons h]
  exact List.sublist_cons_self _ _

lemma bcLt_of_ltKey (e : BlockChange) (x : Int) (y : Nat) (z : Int) (b : Nat)
    (h : bcLtKey e x y z) : bcLt e { x := x, y := y, z := z, block := b } := by
  unfold bcLtKey at h
  unfold bcLt
  exact h

lemma bcLt_of_gtKey (e : BlockChange) (x : Int) (y : Nat) (z : Int) (b : Nat)
    (h : bcGtKey e x y z) : bcLt { x := x, y := y, z := z, block := b } e := by
  unfold bcGtKey at h
  unfold bcLt
  exact h

lemma insert_inv (l : List BlockChange) (x : Int) (y : Nat) (z : Int) (b : Nat)
    (hinv : OverlayInv l) :
    OverlayInv (insertBlockChangeSorted l x y z b).2 := by
  rcases hres : (bsearchTop l x y z).1 with _ | i
  · rw [insert_eq_none l x y z b hres]
    by_cases hb : b = 255
    · rw [if_pos hb]
      exact hinv
    · rw [if_neg hb]
      by_cases hfull : MAX_BLOCK_CHANGES ≤ l.length
      · rw [if_pos hfull]
        exact hinv
      · rw [if_neg hfull]
        have hnone := (bsearchTop_spec l x y z hinv).2 hres
        have hp1 : 0 ≤ (bsearchTop l x y z).2 := hnone.1
        have hp2 : (bsearchTop l x y z).2 ≤ (l.length : Int) := hnone.2.1
        have hlen_take : (l.take (bsearchTop l x y z).2.toNat).length =
            (bsearchTop l x y z).2.toNat := by
          rw [List.length_take]
          omega
        constructor
        · rw [List.pairwise_append]
          refine ⟨hinv.1.sublist (List.take_sublist _ _), ?_, ?_⟩
          · rw [List.pairwise_cons]
            refine ⟨?_, hinv.1.sublist (List.drop_sublist _ _)⟩
            intro c hc
            rcases List.mem_iff_getElem.mp hc with ⟨k, hk, hck⟩
            rw [List.getElem_drop] at hck
            have hklen : (bsearchTop l x y z).2.toNat + k < l.length := by
              rw [List.length_drop] at hk
              omega
            have hgt := hnone.2.2.2 ((bsearchTop l x y z).2.toNat + k) (by omega) hklen
            rw [List.getD_eq_getElem l bcDummy hklen, hck] at hgt
            exact bcLt_of_gtKey c x y z b hgt
          · intro a ha c hc
            rcases List.mem_iff_getElem.mp ha with ⟨j, hj, haj⟩
            rw [List.getElem_take] at haj
            have hjlen : j < l.length := by
              rw [hlen_take] at hj
              omega
            have hjlt : (j : Int) < (bsearchTop l x y z).2 := by
              rw [hlen_take] at hj
              omega
            have hlt := hnone.2.2.1 j hjlt hjlen
            rw [List.getD_eq_getElem l bcDummy hjlen, haj] at hlt
            rcases List.mem_cons.mp hc with rfl | hc'
            · exact bcLt_of_ltKey a x y z b hlt
            · rcases List.mem_iff_getElem.mp hc' with ⟨k, hk, hck⟩
              rw [List.getElem_drop] at hck
              have hklen : (bsearchTop l x y z).2.toNat + k < l.length := by
                rw [List.length_drop] at hk
                omega
              have hjk : j < (bsearchTop l x y z).2.toNat + k := by
                rw [hlen_take] at hj
                omega
              have hpw := List.pairwise_iff_getElem.mp hinv.1 j _ hjlen hklen hjk
              rw [haj, hck] at hpw
              exact hpw
        · intro e hemem
          rcases List.mem_append.mp hemem with he | he
          · exact hinv.2 e ((List.take_sublist _ _).subset he)
          · rcases List.mem_cons.mp he with rfl | he'
            · exact hb
            · exact hinv.2 e ((List.drop_sublist _ _).subset he')
  · rw [insert_eq_found l x y z b i hres]
    have hf := (bsearchTop_spec l x y z hinv).1 i hres
    by_cases hb : b = 255
    · rw [if_pos hb]
      exact ⟨hinv.1.sublist (erase_sublist l i hf.1), fun e he =>
        hinv.2 e ((erase_sublist l i hf.1).subset he)⟩
    · rw [if_neg hb]
      constructor
      · rw [List.pairwise_iff_getElem]
        intro j k hj hk hjk
        rw [List.length_set] at hj hk
        rw [List.getElem_set, List.getElem_set]
        have hpw := List.pairwise_iff_getElem.mp hinv.1 j k hj hk hjk
        by_cases hij : i = j
        · rw [if_pos hij, if_neg (by omega)]
          subst hij
          rw [← List.getD_eq_getElem l bcDummy hj] at hpw
          exact hpw
        · rw [if_neg hij]
          by_cases hik : i = k
          · rw [if_pos hik]
            subst hik
            rw [← List.getD_eq_getElem l bcDummy hk] at hpw
            exact hpw
          · rw [if_neg hik]
            exact hpw
      · intro e he
        rcases List.mem_or_eq_of_mem_set he with he' | rfl
        · exact hinv.2 e he'
        · exact hb

lemma bcLt_keyEq_ltKey (a c : BlockChange) (x : Int) (y : Nat) (z : Int)
    (h1 : bcLt a c) (h2 : bcKeyEq c x y z) : bcLtKey a x y z := by
  unfold bcLt at h1
  unfold bcKeyEq at h2
  unfold bcLtKey
  omega

lemma keyEq_bcLt_gtKey (a c : BlockChange) (x : Int) (y : Nat) (z : Int)
    (h1 : bcKeyEq a x y z) (h2 : bcLt a c) : bcGtKey c x y z := by
  unfold bcLt at h2
  unfold bcKeyEq at h1
  unfold bcGtKey
  omega

lemma absent_of_searchNone (l : List BlockChange) (hinv : OverlayInv l)
    (x : Int) (y : Nat) (z : Int) (hres : (bsearchTop l x y z).1 = none) :
    ∀ e ∈ l, ¬bcKeyEq e x y z := by
  intro e he hk
  have hnone := (bsearchTop_spec l x y z hinv).2 hres
  rcases List.mem_iff_getElem.mp he with ⟨j, hj, hej⟩
  by_cases hjp : (j : Int) < (bsearchTop l x y z).2
  · have hlt := hnone.2.2.1 j hjp hj
    rw [List.getD_eq_getElem l bcDummy hj, hej] at hlt
    exact bcLtKey_not_eq e x y z hlt hk
  · have hgt := hnone.2.2.2 j (by omega) hj
    rw [List.getD_eq_getElem l bcDummy hj, hej] at hgt
    exact bcGtKey_not_eq e x y z hgt hk

lemma searchNone_of_absent (l : List BlockChange) (hinv : OverlayInv l)
    (x : Int) (y : Nat) (z : Int) (habs : ¬KeyIn l x y z) :
    (bsearchTop l x y z).1 = none := by
  rcases hres : (bsearchTop l x y z).1 with _ | i
  · rfl
  · exfalso
    have hf := (bsearchTop_spec l x y z hinv).1 i hres
    have hmem : l.getD i bcDummy ∈ l := by
      rw [List.getD_eq_getElem l bcDummy hf.1]
      exact List.getElem_mem hf.1
    exact habs ⟨_, hmem, hf.2⟩

lemma searchFound_of_keyIn (l : List BlockChange) (hinv : OverlayInv l)
    (x : Int) (y : Nat) (z : Int) (hk : KeyIn l x y z) :
    ∃ i : Nat, (bsearchTop l x y z).1 = some i := by
  rcases hres : (bsearchTop l x y z).1 with _ | i
  · exfalso
    rcases hk with ⟨e, he, hke⟩
    exact absent_of_searchNone l hinv x y z hres e he hke
  · exact ⟨i, rfl⟩

lemma insert_mem_key (l : List BlockChange) (x : Int) (y : Nat) (z : Int) (b : Nat)
    (hinv : OverlayInv l) (hb : b ≠ 255)
    (hroom : KeyIn l x y z ∨ l.length < MAX_BLOCK_CHANGES) :
    ∃ e ∈ (insertBlockChangeSorted l x y z b).2, bcKeyEq e x y z ∧ e.block = b := by
  rcases hres : (bsearchTop l x y z).1 with _ | i
  · have habs := absent_of_searchNone l hinv x y z hres
    have hroom' : l.length < MAX_BLOCK_CHANGES := by
      rcases hroom with ⟨e, he, hke⟩ | h
      · exact absurd hke (habs e he)
      · exact h
    rw [insert_eq_none l x y z b hres, if_neg hb, if_neg (by omega)]
    refine ⟨{ x := x, y := y, z := z, block := b }, ?_, ⟨rfl, rfl, rfl⟩, rfl⟩
    exact List.mem_append.mpr (Or.inr (List.mem_cons_self _ _))
  · have hf := (bsearchTop_spec l x y z hinv).1 i hres
    rw [insert_eq_found l x y z b i hres, if_neg hb]
    have hlen : i < (l.set i { l.getD i bcDummy with block := b }).length := by
      rw [List.length_set]
      exact hf.1
    refine ⟨{ l.getD i bcDummy with block := b },
      List.mem_iff_getElem.mpr ⟨i, hlen, List.getElem_set_self hlen⟩, ?_, rfl⟩
    exact hf.2

lemma insert_key_blocks (l : List BlockChange) (x : Int) (y : Nat) (z : Int) (b : Nat)
    (hinv : OverlayInv l) (hb : b ≠ 255)
    (hroom : KeyIn l x y z ∨ l.length < MAX_BLOCK_CHANGES) :
    ∀ e ∈ (insertBlockChangeSorted l x y z b).2, bcKeyEq e x y z → e.block = b := by
  obtain ⟨e0, he0, hk0, hb0⟩ := insert_mem_key l x y z b hinv hb hroom
  intro e he hk
  rw [key_unique _ (insert_inv l x y z b hinv).1 x y z e e0 he he0 hk hk0]
  exact hb0

lemma insert_lookup (l : List BlockChange) (x : Int) (y : Nat) (z : Int) (b : Nat)
    (hinv : OverlayInv l) (hb : b ≠ 255)
    (hroom : KeyIn l x y z ∨ l.length < MAX_BLOCK_CHANGES) :
    getBlockChange (insertBlockChangeSorted l x y z b).2 x y z = b := by
  obtain ⟨e0, he0, hk0, hb0⟩ := insert_mem_key l x y z b hinv hb hroom
  rw [getBlockChange_of_mem _ (insert_inv l x y z b hinv) x y z e0 he0 hk0]
  exact hb0

lemma delete_absent (l : List BlockChange) (x : Int) (y : Nat) (z : Int)
    (hinv : OverlayInv l) :
    ∀ e ∈ (insertBlockChangeSorted l x y z 255).2, ¬bcKeyEq e x y z := by
  rcases hres : (bsearchTop l x y z).1 with _ | i
  · rw [insert_eq_none l x y z 255 hres, if_pos rfl]
    exact absent_of_searchNone l hinv x y z hres
  · have hf := (bsearchTop_spec l x y z hinv).1 i hres
    rw [insert_eq_found l x y z 255 i hres, if_pos rfl]
    intro e he hk
    rcases List.mem_append.mp he with he' | he'
    · rcases List.mem_iff_getElem.mp he' with ⟨j, hj, hej⟩
      rw [List.getElem_take] at hej
      have hjlen : j < l.length := by
        rw [List.length_take] at hj
        omega
      have hji : j < i := by
        rw [List.length_take] at hj
        omega
      have hpw := List.pairwise_iff_getElem.mp hinv.1 j i hjlen hf.1 hji
      rw [hej, ← List.getD_eq_getElem l bcDummy hf.1] at hpw
      exact bcLtKey_not_eq e x y z (bcLt_keyEq_ltKey e _ x y z hpw hf.2) hk
    · rcases List.mem_iff_getElem.mp he' with ⟨k, hk2, hek⟩
      rw [List.getElem_drop] at hek
      have hklen : i + 1 + k < l.length := by
        rw [List.length_drop] at hk2
        omega
      have hpw := List.pairwise_iff_getElem.mp hinv.1 i (i + 1 + k) hf.1 hklen (by omega)
      rw [hek, ← List.getD_eq_getElem l bcDummy hf.1] at hpw
      exact bcGtKey_not_eq e x y z (keyEq_bcLt_gtKey _ e x y z hf.2 hpw) hk

lemma insert_code_keyIn (l : List BlockChange) (x : Int) (y : Nat) (z : Int) (b : Nat)
    (hinv : OverlayInv l) (hk : KeyIn l x y z) :
    (insertBlockChangeSorted l x y z b).1 = 0 := by
  obtain ⟨i, hres⟩ := searchFound_of_keyIn l hinv x y z hk
  rw [insert_eq_found l x y z b i hres]
  split_ifs <;> rfl

lemma insert_absent_del (l : List BlockChange) (x : Int) (y : Nat) (z : Int)
    (hinv : OverlayInv l) (habs : ¬KeyIn l x y z) :
    insertBlockChangeSorted l x y z 255 = (0, l) := by
  rw [insert_eq_none l x y z 255 (searchNone_of_absent l hinv x y z habs), if_pos rfl]

lemma insert_absent_full (l : List BlockChange) (x : Int) (y : Nat) (z : Int) (b : Nat)
    (hinv : OverlayInv l) (habs : ¬KeyIn l x y z) (hb : b ≠ 255)
    (hfull : MAX_BLOCK_CHANGES ≤ l.length) :
    insertBlockChangeSorted l x y z b = (1, l) := by
  rw [insert_eq_none l x y z b (searchNone_of_absent l hinv x y z habs), if_neg hb,
    if_pos hfull]

lemma insert_code_one (l : List BlockChange) (x : Int) (y : Nat) (z : Int) (b : Nat)
    (hinv : OverlayInv l) (hcode : (insertBlockChangeSorted l x y z b).1 = 1) :
    MAX_BLOCK_CHANGES ≤ l.length ∧ ¬KeyIn l x y z ∧ b ≠ 255 ∧
      (insertBlockChangeSorted l x y z b).2 = l := by
  rcases hres : (bsearchTop l x y z).1 with _ | i
  · rw [insert_eq_none l x y z b hres] at hcode ⊢
    by_cases hb : b = 255
    · rw [if_pos hb] at hcode
      exact absurd hcode (by norm_num)
    · rw [if_neg hb] at hcode ⊢
      by_cases hfull : MAX_BLOCK_CHANGES ≤ l.length
      · rw [if_pos hfull]
        refine ⟨hfull, ?_, hb, rfl⟩
        intro ⟨e, he, hke⟩
        exact absent_of_searchNone l hinv x y z hres e he hke
      · rw [if_neg hfull] at hcode
        exact absurd hcode (by norm_num)
  · rw [insert_eq_found l x y z b i hres] at hcode
    by_cases hb : b = 255
    · rw [if_pos hb] at hcode
      exact absurd hcode (by norm_num)
    · rw [if_neg hb] at hcode
      exact absurd hcode (by norm_num)

instance (a b : BlockChange) : Decidable (bcLt a b) := by
  unfold bcLt
  infer_instance

instance (e : BlockChange) (x : Int) (y : Nat) (z : Int) : Decidable (bcKeyEq e x y z) := by
  unfold bcKeyEq
  infer_instance

instance (l : List BlockChange) : Decidable (OverlayInv l) := by
  unfold OverlayInv
  infer_instance

instance (l : List BlockChange) (x : Int) (y : Nat) (z : Int) : Decidable (KeyIn l x y z) := by
  unfold KeyIn
  infer_instance

/-- One overlay mutation (`put_block` body: insertBlockChangeSorted on the
key), for stating the invariant over arbitrary operation sequences. -/
def overlayStep (l : List BlockChange) (op : Int × Nat × Int × Nat) : List BlockChange :=
  (insertBlockChangeSorted l op.1 op.2.1 op.2.2.1 op.2.2.2).2

lemma overlay_foldl_inv (ops : List (Int × Nat × Int × Nat)) :
    ∀ l : List BlockChange, OverlayInv l → OverlayInv (ops.foldl overlayStep l) := by
  induction ops with
  | nil => exact fun l h => h
  | cons op t ih =>
    intro l h
    rw [List.foldl_cons]
    exact ih _ (insert_inv l op.1 op.2.1 op.2.2.1 op.2.2.2 h)

lemma overlayInv_nil : OverlayInv [] :=
  ⟨List.Pairwise.nil, fun e he => absurd he (List.not_mem_nil e)⟩

lemma buildChunkSection_hit (seed : Nat) (changes : List BlockChange) (st : ChunkCacheState)
    (cx cy cz : Int) (idx : Fin 64)
    (h : findCacheEntry st (toI16 cx) (toI16 cy) (toI16 cz) = some idx) :
    buildChunkSection seed changes st cx cy cz =
      ({ slots := fun k => if k = idx then
           { st.slots idx with lru := (st.clock + 1) % 65536 } else st.slots k,
         clock := (st.clock + 1) % 65536 },
       applyBlockChanges changes cx cy cz ((st.slots idx).data), (st.slots idx).biome) := by
  simp only [buildChunkSection]
  rw [h]

lemma buildChunkSection_miss (seed : Nat) (changes : List BlockChange) (st : ChunkCacheState)
    (cx cy cz : Int)
    (h : findCacheEntry st (toI16 cx) (toI16 cy) (toI16 cz) = none) :
    buildChunkSection seed changes st cx cy cz =
      ({ slots := fun k => if k = findCacheSlot st (toI16 cx) (toI16 cy) (toI16 cz) then
           { cx := toI16 cx, cy := toI16 cy, cz := toI16 cz,
             biome := buildChunkSectionInternalBiome seed cx cz, valid := true,
             lru := (st.clock + 1) % 65536,
             data := buildChunkSectionInternalData seed changes cx cy cz }
         else st.slots k,
         clock := (st.clock + 1) % 65536 },
       buildChunkSectionInternalData seed changes cx cy cz,
       buildChunkSectionInternalBiome seed cx cz) := by
  simp only [buildChunkSection]
  rw [h]

lemma sectionTerrain_stone_of_neg (seed : Nat) (cx cy cz : Int) (idx : Nat)
    (h : ((idx / 256 : Nat) : Int) + cy < 0) :
    sectionTerrain seed cx cy cz idx = B_stone := by
  simp only [sectionTerrain]
  exact getTerrainAtFromCache_stone_of_neg _ _ _ _ _ _ _ _
    (sectionHeight_bounds seed cx cz _ _).1 (sectionHeight_bounds seed cx cz _ _).2 h

lemma sectionTerrain_air_of_high (seed : Nat) (cx cy cz : Int) (idx : Nat)
    (h : 86 ≤ ((idx / 256 : Nat) : Int) + cy) :
    sectionTerrain seed cx cy cz idx = B_air := by
  simp only [sectionTerrain]
  exact getTerrainAtFromCache_air_of_high _ _ _ _ _ _ _ _
    (sectionHeight_bounds seed cx cz _ _).2
    (getFeatureFromAnchor_bounds seed (sectionAnchor seed cx cz 0)) h

lemma getBlockAt_overlay_hit (seed : Nat) (changes : List BlockChange) (x y z : Int) (b : Nat)
    (hy : 0 ≤ y) (hb : b ≠ 255)
    (hbc : getBlockChange changes (toI16 x) ((y % 256).toNat) (toI16 z) = b) :
    getBlockAt seed changes x y z = b := by
  simp only [getBlockAt]
  rw [if_neg (by omega : ¬y < 0), hbc, if_pos hb]

lemma getBlockAt_terrain_of_absent (seed : Nat) (changes : List BlockChange) (x y z : Int)
    (hbc : getBlockChange changes (toI16 x) ((y % 256).toNat) (toI16 z) = 255) :
    getBlockAt seed changes x y z = getBlockAt seed [] x y z := by
  simp only [getBlockAt]
  rw [hbc, show getBlockChange [] (toI16 x) ((y % 256).toNat) (toI16 z) = 255 from rfl]

/-- Cache state with one valid slot for section `(0, 0, 0)` holding constant
data, used to exercise the cache-hit path at a concrete input. -/
def exCacheState : ChunkCacheState :=
  { slots := fun k =>
      if k = (0 : Fin 64) then
        { cx := 0, cy := 0, cz := 0, biome := 0, valid := true, lru := 0, data := fun _ => 9 }
      else
        { cx := 0, cy := 0, cz := 0, biome := 0, valid := false, lru := 0, data := fun _ => 0 },
    clock := 0 }

/-- Claim C1 (corrected).  The cache of buildChunkSection does NOT store
pre-overlay terrain: on a miss the slot receives the internal builder's
output, which is the synthesized terrain with the overlay already applied
(`buildChunkSectionInternalData`); the true part of the claim is the
cache-hit path, which copies the slot bytes into the scratch and
re-applies the current overlay over them. -/
theorem C1_cache_overlay_baked (seed : Nat) (changes : List BlockChange)
    (st : ChunkCacheState) (cx cy cz : Int) :
    (∀ idx : Fin 64, findCacheEntry st (toI16 cx) (toI16 cy) (toI16 cz) = some idx →
      (buildChunkSection seed changes st cx cy cz).2.1 =
        applyBlockChanges changes cx cy cz ((st.slots idx).data)) ∧
    (findCacheEntry st (toI16 cx) (toI16 cy) (toI16 cz) = none →
      ((buildChunkSection seed changes st cx cy cz).1.slots
          (findCacheSlot st (toI16 cx) (toI16 cy) (toI16 cz))).valid = true ∧
        ((buildChunkSection seed changes st cx cy cz).1.slots
            (findCacheSlot st (toI16 cx) (toI16 cy) (toI16 cz))).data =
          applyBlockChanges changes cx cy cz (sectionTerrain seed cx cy cz)) := by
  constructor
  · intro idx h
    rw [buildChunkSection_hit seed changes st cx cy cz idx h]
  · intro h
    rw [buildChunkSection_miss seed changes st cx cy cz h]
    refine ⟨?_, ?_⟩ <;> simp [buildChunkSectionInternalData]

/-- Hit path of C1 exercised at a concrete cache state with a valid
matching slot: the scratch is the slot's bytes with the overlay
re-applied. -/
theorem C1_cache_witness :
    (buildChunkSection 0 [] exCacheState 0 0 0).2.1 =
      applyBlockChanges [] 0 0 0 ((exCacheState.slots 0).data) :=
  (C1_cache_overlay_baked 0 [] exCacheState 0 0 0).1 0 (by decide)

/-- Refutation of C1's stored-bytes clause at a concrete input: after one
overlay put of a diamond block at (8,8,8), building section (0,0,0) from
the empty cache leaves a valid slot whose byte 2191 differs from the
pre-overlay synthesized terrain - the overlay delta was baked into the
cached data. -/
theorem C1_cache_counterexample :
    (((buildChunkSection world_seed [{ x := 8, y := 8, z := 8, block := B_diamond_block }]
        initChunkCache 0 0 0).1.slots 0).valid = true) ∧
      ((buildChunkSection world_seed [{ x := 8, y := 8, z := 8, block := B_diamond_block }]
          initChunkCache 0 0 0).1.slots 0).data 2191 ≠
        sectionTerrain world_seed 0 0 0 2191 := by
  decide

/-- Claim C2 (corrected).  What getChunkHash actually computes on a
little-endian host: the memcpy packing places cx in the low 16 bits, cz
in the next 16 and the seed in bits 32-63 of the splitmix64 input; the
result is the low 32 bits of splitmix64 of that value.  The packing is a
memcpy of native integer representations, so it is NOT independent of
host endianness (see the counterexample against the big-endian layout). -/
theorem C2_chunk_hash_le (seed : Nat) (x z : Int) :
    getChunkHash seed x z =
      u32 (splitmix64 (i16bits x + 65536 * i16bits z + 4294967296 * u32 seed)) :=
  getChunkHash_eq seed x z

/-- Refutation of C2's endianness-independence clause at a concrete
input: the same source compiled on a big-endian host (the memcpy lays
the bytes of cx, cz and seed down most-significant first) hashes
chunk (0,0) to a different value than the little-endian build. -/
theorem C2_chunk_hash_counterexample :
    getChunkHash world_seed 0 0 ≠ getChunkHashBE world_seed 0 0 := by
  decide

/-- Claim C3 (corrected).  The builder is total - `sectionTerrain` is a
total function producing a byte for every index of any section - but
below-world positions get B_stone, not bedrock (getTerrainAtFromCache
has no bedrock case and no `y < 0` check: negative y falls into the deep
`y <= height - 4` branch, whose cave band and ore column cannot reach
negative depths); above-world positions are air from 86 up (terrain air
starts above the height map's maximum 78, and tree features reach at
most y = 85). -/
theorem C3_builder_totality (seed : Nat) (cx cy cz : Int) (idx : Nat) :
    (((idx / 256 : Nat) : Int) + cy < 0 → sectionTerrain seed cx cy cz idx = B_stone) ∧
      (86 ≤ ((idx / 256 : Nat) : Int) + cy → sectionTerrain seed cx cy cz idx = B_air) :=
  ⟨sectionTerrain_stone_of_neg seed cx cy cz idx, sectionTerrain_air_of_high seed cx cy cz idx⟩

/-- C3 exercised at concrete inputs: block (0,0,0) of section y = -16 is
stone, block (0,0,0) of section y = 96 is air. -/
theorem C3_builder_witness :
    sectionTerrain world_seed 0 (-16) 0 0 = B_stone ∧
      sectionTerrain world_seed 0 96 0 0 = B_air :=
  ⟨(C3_builder_totality world_seed 0 (-16) 0 0).1 (by decide),
    (C3_builder_totality world_seed 0 96 0 0).2 (by decide)⟩

/-- Refutation of C3's bedrock clause at a concrete input: the first
block of the section at y = -16 (world y = -16 < 0) is not bedrock. -/
theorem C3_builder_counterexample :
    sectionTerrain world_seed 0 (-16) 0 0 ≠ B_bedrock := by
  decide

/-- Claim C4 (confirmed).  After a put of block b (not a tombstone,
torch or chest) at a key inside the section, the overlay-application
pass of the next build of that section - over any base section bytes,
covering both the cache-miss and the cache-hit path - writes b at the
interleaved storage index of the key. -/
theorem C4_section_shadowing (l : List BlockChange) (x : Int) (y : Nat) (z : Int)
    (b : Nat) (cx cy cz : Int) (sec : Nat → Nat)
    (hinv : OverlayInv l) (hroom : l.length < MAX_BLOCK_CHANGES)
    (hb : ¬bcSkip { x := x, y := y, z := z, block := b })
    (hr : bcInRange { x := x, y := y, z := z, block := b } cx cy cz) :
    applyBlockChanges (insertBlockChangeSorted l x y z b).2 cx cy cz sec
      (bcIndex { x := x, y := y, z := z, block := b } cx cy cz) = b := by
  have hb255 : b ≠ 255 := by
    intro hc
    exact hb (Or.inl hc)
  obtain ⟨e, he, hke, hbe⟩ := insert_mem_key l x y z b hinv hb255 (Or.inr hroom)
  have hall := insert_key_blocks l x y z b hinv hb255 (Or.inr hroom)
  obtain ⟨hex1, hey1, hez1⟩ := hke
  apply applyBlockChanges_eq_block
  · refine ⟨e, he, ?_, ?_, ?_⟩
    · intro hs
      apply hb
      unfold bcSkip at hs ⊢
      rw [hbe] at hs
      exact hs
    · unfold bcInRange at hr ⊢
      rw [hex1, hey1, hez1]
      exact hr
    · unfold bcIndex
      rw [hex1, hey1, hez1]
  · intro ch hch hw
    obtain ⟨hs, hrch, hidx⟩ := hw
    obtain ⟨h1, h2, h3⟩ := bcIndex_inj ch { x := x, y := y, z := z, block := b } cx cy cz
      hrch hr hidx
    exact hall ch hch ⟨h1, h2, h3⟩

/-- S4 instance of C4: put_block(8,8,8,B_diamond_block) then building
section (0,0,0) over the synthesized terrain yields B_diamond_block at
storage index 2191, and 2191 is exactly the interleaved index of
(dx,dy,dz) = (8,8,8). -/
theorem C4_section_shadowing_witness :
    applyBlockChanges (insertBlockChangeSorted [] 8 8 8 B_diamond_block).2 0 0 0
        (sectionTerrain world_seed 0 0 0) 2191 = B_diamond_block ∧
      bcIndex { x := 8, y := 8, z := 8, block := B_diamond_block } 0 0 0 = 2191 := by
  constructor
  · have h := C4_section_shadowing [] 8 8 8 B_diamond_block 0 0 0
      (sectionTerrain world_seed 0 0 0) (by decide) (by decide) (by decide) (by decide)
    exact (show bcIndex { x := 8, y := 8, z := 8, block := B_diamond_block } 0 0 0 = 2191
      by decide) ▸ h
  · decide

/-- Claim C5 (confirmed).  For any in-range y and b not the tombstone,
putting b at (x,y,z) makes block_at return b, and a subsequent delete
(put of 0xFF) makes block_at return the synthesized terrain value again,
the value block_at gives with an empty overlay. -/
theorem C5_overlay_roundtrip (seed : Nat) (l : List BlockChange) (x z : Int) (y b : Nat)
    (hinv : OverlayInv l) (hy : y ≤ 255) (hb : b ≠ 255)
    (hroom : l.length < MAX_BLOCK_CHANGES) :
    getBlockAt seed (insertBlockChangeSorted l (toI16 x) y (toI16 z) b).2 x (y : Int) z = b ∧
      getBlockAt seed (insertBlockChangeSorted
          (insertBlockChangeSorted l (toI16 x) y (toI16 z) b).2 (toI16 x) y (toI16 z) 255).2
          x (y : Int) z =
        getBlockAt seed [] x (y : Int) z := by
  have hykey : (((y : Int)) % 256).toNat = y := by omega
  have hinv' := insert_inv l (toI16 x) y (toI16 z) b hinv
  constructor
  · apply getBlockAt_overlay_hit seed _ x (y : Int) z b (by omega) hb
    rw [hykey]
    exact insert_lookup l (toI16 x) y (toI16 z) b hinv hb (Or.inr hroom)
  · apply getBlockAt_terrain_of_absent seed _ x (y : Int) z
    rw [hykey]
    exact getBlockChange_of_absent _ (insert_inv _ (toI16 x) y (toI16 z) 255 hinv')
      (toI16 x) y (toI16 z) (delete_absent _ (toI16 x) y (toI16 z) hinv')

/-- S5 instance of C5: put_block(100,64,100,B_air) makes
block_at(100,64,100) = B_air, and deleting the overlay entry restores
the empty-overlay synthesized value. -/
theorem C5_overlay_roundtrip_witness :
    getBlockAt world_seed (insertBlockChangeSorted [] (toI16 100) 64 (toI16 100) B_air).2
        100 ((64 : Nat) : Int) 100 = B_air ∧
      getBlockAt world_seed (insertBlockChangeSorted
          (insertBlockChangeSorted [] (toI16 100) 64 (toI16 100) B_air).2
          (toI16 100) 64 (toI16 100) 255).2 100 ((64 : Nat) : Int) 100 =
        getBlockAt world_seed [] 100 ((64 : Nat) : Int) 100 :=
  C5_overlay_roundtrip world_seed [] 100 100 64 B_air (by decide) (by decide) (by decide)
    (by decide)

/-- Claim C6 (corrected).  block_at(0,0,0) with the benchmark seed and an
empty overlay is B_lava, not bedrock: y = 0 resolves through the deep
subsurface branch, lands on the ore column of chunk (0,0) and falls
through the ore probability chain to the `y < 5` lava case.  The second
clause of the claim holds: block_at returns bedrock for every y < 0
whatever the overlay holds. -/
theorem C6_origin_and_negative_y :
    getBlockAt world_seed [] 0 0 0 = B_lava ∧
      ∀ (seed : Nat) (changes : List BlockChange) (x y z : Int),
        y < 0 → getBlockAt seed changes x y z = B_bedrock := by
  constructor
  · decide
  · intro seed changes x y z hy
    simp only [getBlockAt]
    rw [if_pos hy]

/-- C6's bedrock clause exercised at a concrete input: block_at(5,-3,7)
is bedrock. -/
theorem C6_origin_witness : getBlockAt 0 [] 5 (-3) 7 = B_bedrock :=
  C6_origin_and_negative_y.2 0 [] 5 (-3) 7 (by decide)

/-- Refutation of C6's first clause at the concrete input of spec test
S1: block_at(0,0,0) with the benchmark seed is not bedrock. -/
theorem C6_origin_counterexample : getBlockAt world_seed [] 0 0 0 ≠ B_bedrock := by
  decide

/-- Claim C7 (corrected).  For an unsuppressed feature the world
coordinates and the height-plus-one are as claimed, but the variant
shift count is the sum of the WORLD coordinates
`toI16(fx + 16*anchor.x) + toI16(fz + 16*anchor.z)`, not the in-chunk
sum fx + fz: the C code computes `feature->variant` after overwriting
`feature->x` and `feature->z` with world coordinates. -/
theorem C7_feature_fields (seed : Nat) (anchor : ChunkAnchor) (fx fz : Nat)
    (hfx : fx = anchor.hash % 256 % 16) (hfz : fz = anchor.hash % 256 / 16)
    (h : anchor.biome = W_mangrove_swamp ∨ (3 ≤ fx ∧ fx ≤ 13 ∧ 3 ≤ fz ∧ fz ≤ 13)) :
    getFeatureFromAnchor seed anchor =
      { x := toI16 ((fx : Int) + anchor.x * 16),
        z := toI16 ((fz : Int) + anchor.z * 16),
        y := u8 (getHeightAtFromHash seed
          (mod_abs (toI16 ((fx : Int) + anchor.x * 16)) 16).toNat
          (mod_abs (toI16 ((fz : Int) + anchor.z * 16)) 16).toNat
          anchor.x anchor.z anchor.hash anchor.biome + 1),
        variant := (anchor.hash >>>
          (toI16 ((fx : Int) + anchor.x * 16) + toI16 ((fz : Int) + anchor.z * 16)).toNat)
          &&& 1 } := by
  subst hfx hfz
  simp only [getFeatureFromAnchor]
  rw [if_neg (by
    rcases h with h | h
    · exact fun hc => hc.1 h
    · intro hc
      rcases hc.2 with (h1 | h1) | (h1 | h1) <;> omega)]

/-- C7 exercised at a concrete unsuppressed anchor (hash 51 gives
fx = fz = 3): the feature sits at world (3,19), height 70, variant 0. -/
theorem C7_feature_fields_witness :
    getFeatureFromAnchor 0 { x := 0, z := 1, hash := 51, biome := 0 } =
      { x := 3, z := 19, y := 70, variant := 0 } := by
  have h := C7_feature_fields 0 { x := 0, z := 1, hash := 51, biome := 0 } 3 3
    (by decide) (by decide) (Or.inr (by decide))
  rw [h]
  decide

/-- Refutation of C7's variant formula at a concrete input: for the
anchor of chunk (1,0) with hash 0x400033 (fx = fz = 3, world x = 19,
world z = 3) the code shifts by 22 and gets variant 1, while the claimed
shift by fx + fz = 6 gives 0. -/
theorem C7_feature_variant_counterexample :
    (getFeatureFromAnchor 0 { x := 1, z := 0, hash := 4194355, biome := 0 }).variant ≠
      (4194355 >>> (4194355 % 256 % 16 + 4194355 % 256 / 16)) &&& 1 := by
  decide

/-- Claim C8 (corrected).  The mangrove corner height is the base height
64 plus four `% 3` residues of the shifted hash - values in 0..2, not
the claimed 2-bit `& 3` fields in 0..3 - and since that sum is
nonnegative the result never drops below 64, so the claimed
pond-subtraction branch is unreachable. -/
theorem C8_mangrove_corner_height (hash : Nat) :
    getCornerHeight hash W_mangrove_swamp =
        TERRAIN_BASE_HEIGHT +
          (hash % 3 + (hash >>> 4) % 3 + (hash >>> 8) % 3 + (hash >>> 12) % 3) ∧
      TERRAIN_BASE_HEIGHT ≤ getCornerHeight hash W_mangrove_swamp := by
  have h := getCornerHeight_mangrove hash
  constructor
  · exact h
  · rw [h]
    simp only [TERRAIN_BASE_HEIGHT]
    omega

/-- Refutation of C8's 2-bit-field formula at a concrete input: for
hash 3 the code's `% 3` residues sum to 0 (height 64), while the claimed
`& 3` fields would sum to 3 (height 67). -/
theorem C8_mangrove_corner_counterexample :
    getCornerHeight 3 W_mangrove_swamp ≠
      TERRAIN_BASE_HEIGHT +
        ((3 &&& 3) + ((3 >>> 4) &&& 3) + ((3 >>> 8) &&& 3) + ((3 >>> 12) &&& 3)) := by
  decide

/-- Claim C9 (confirmed).  After any sequence of overlay put/remove
operations starting from the empty overlay, the overlay is strictly
sorted by (x,z,y) - which also rules out duplicate keys - and holds no
tombstone entries. -/
theorem C9_overlay_sorted (ops : List (Int × Nat × Int × Nat)) :
    (ops.foldl overlayStep []).Pairwise bcLt ∧
      ∀ e ∈ ops.foldl overlayStep [], e.block ≠ 255 :=
  overlay_foldl_inv ops [] overlayInv_nil

/-- Claim C10 (confirmed).  put_block on a key already present always
returns 0 (update and delete both succeed even at full capacity), an
absent-key delete returns 0 leaving the overlay unchanged, and the full
error 1 occurs only when inserting a fresh key at capacity, in which
case the overlay is unchanged. -/
theorem C10_put_at_capacity (l : List BlockChange) (x : Int) (y : Nat) (z : Int) (b : Nat)
    (hinv : OverlayInv l) :
    (KeyIn l x y z → (insertBlockChangeSorted l x y z b).1 = 0) ∧
      (¬KeyIn l x y z → b = 255 → insertBlockChangeSorted l x y z b = (0, l)) ∧
      ((insertBlockChangeSorted l x y z b).1 = 1 →
        MAX_BLOCK_CHANGES ≤ l.length ∧ ¬KeyIn l x y z ∧ b ≠ 255 ∧
          (insertBlockChangeSorted l x y z b).2 = l) := by
  refine ⟨fun hk => insert_code_keyIn l x y z b hinv hk, fun habs hb => ?_,
    fun hc => insert_code_one l x y z b hinv hc⟩
  subst hb
  exact insert_absent_del l x y z hinv habs

/-- C10 exercised at a concrete input (empty overlay, tombstone put):
the hypotheses are discharged at a concrete overlay state. -/
theorem C10_put_at_capacity_witness :
    (KeyIn [] 0 0 0 → (insertBlockChangeSorted [] 0 0 0 255).1 = 0) ∧
      (¬KeyIn [] 0 0 0 → (255 : Nat) = 255 → insertBlockChangeSorted [] 0 0 0 255 = (0, [])) ∧
      ((insertBlockChangeSorted [] 0 0 0 255).1 = 1 →
        MAX_BLOCK_CHANGES ≤ ([] : List BlockChange).length ∧ ¬KeyIn [] 0 0 0 ∧
          (255 : Nat) ≠ 255 ∧ (insertBlockChangeSorted [] 0 0 0 255).2 = []) :=
  C10_put_at_capacity [] 0 0 0 255 (by decide)
